import Mathlib

/-!
Verification of the tiered voice-command triage and dispatch router
(`nox_voice_relay.py`): edit-distance utility, reflex trigger table and
matcher, conversation state store, circuit-breaker / failover client,
directive builder, reply parser, orchestrator and the single-flight gate.

Each Python function is shallowly embedded as an executable Lean
definition; stateful components are embedded as explicit state-passing
functions.  Python strings are modelled as `List Char` (lists of Unicode
code points) or `String` where convenient; `time.time()` values are
modelled as natural numbers (the code only ever compares elapsed times
against a positive interval, for which truncated subtraction agrees with
real subtraction).
-/

namespace VoiceRelay

set_option maxRecDepth 8000

/-- Cost of substituting one character for another (`c1 != c2` in the
source, where Python booleans add as 0/1). -/
def subCost (c1 c2 : Char) : Nat := if c1 = c2 then 0 else 1

/-- Reference definition, following the spec's words: the classic
recursive edit distance — minimum number of single-character insertions,
deletions and substitutions, no transpositions. -/
def lev : List Char → List Char → Nat
  | [], ys => ys.length
  | xs, [] => xs.length
  | x :: xs, y :: ys =>
      min (min (lev xs (y :: ys) + 1) (lev (x :: xs) ys + 1))
          (lev xs ys + subCost x y)
termination_by xs ys => xs.length + ys.length

/-- Inner loop of `_levenshtein`: given the remaining characters of `s2`,
the tail of the previous row starting at column `j` (`p0 :: p1 :: ...`),
and the value `d` last appended to the current row (`curr_row[j]`),
produce the rest of the current row.  Mirrors the `for j, c2 in
enumerate(s2)` loop body: `insertions = prev_row[j+1] + 1`,
`deletions = curr_row[j] + 1`, `substitutions = prev_row[j] + (c1 != c2)`. -/
def nextRowAux (c1 : Char) : List Char → List Nat → Nat → List Nat
  | c2 :: s2, p0 :: p1 :: ps, d =>
      let e := min (min (p1 + 1) (d + 1)) (p0 + subCost c1 c2)
      e :: nextRowAux c1 s2 (p1 :: ps) e
  | _, _, _ => []

/-- One iteration of the outer `for i, c1 in enumerate(s1)` loop:
`curr_row = [i + 1]` followed by the inner loop. -/
def currRow (c1 : Char) (i : Nat) (prev : List Nat) (s2 : List Char) : List Nat :=
  (i + 1) :: nextRowAux c1 s2 prev (i + 1)

/-- The outer loop of `_levenshtein`: fold the rows over `s1`. -/
def levLoop (s2 : List Char) : List Char → Nat → List Nat → List Nat
  | [], _, prev => prev
  | c1 :: s1, i, prev => levLoop s2 s1 (i + 1) (currRow c1 i prev s2)

/-- Body of `_levenshtein` after the argument swap: `if len(s2) == 0:
return len(s1)`, else run the row DP starting from `range(len(s2)+1)`
and return `prev_row[-1]`. -/
def levCore (s1 s2 : List Char) : Nat :=
  if s2.length = 0 then s1.length
  else (levLoop s2 s1 0 (List.range (s2.length + 1))).getLastD 0

/-- `_levenshtein(s1, s2)`: swap so the first argument is the longer,
then run the DP. -/
def _levenshtein (s1 s2 : List Char) : Nat :=
  if s1.length < s2.length then levCore s2 s1 else levCore s1 s2

/-- String-level wrapper (Python strings are character sequences). -/
def levS (s1 s2 : String) : Nat := _levenshtein s1.data s2.data

/-- Abstract description of a DP row: entry `j` of the row for prefix
`A` (stored reversed) is `lev A ((s2.take j).reverse)`; `B` accumulates
the reversed prefix of `s2` already consumed. -/
def rowAux (A : List Char) : List Char → List Char → List Nat
  | B, c2 :: rest => lev A (c2 :: B) :: rowAux A (c2 :: B) rest
  | _, [] => []

/-- The full DP row for the (reversed) prefix `A` of `s1`. -/
def rowFor (A : List Char) (s2 : List Char) : List Nat :=
  lev A [] :: rowAux A [] s2

/-! ## Reflex trigger table and matcher -/

/-- A reflex table entry: `(action_list, speak_text, emotion)`. -/
abbrev ReflexEntry := List String × String × String

/-- The `REFLEXES` dict, as an association list in insertion order
(Python dicts iterate in insertion order). -/
def REFLEXES : List (String × ReflexEntry) := [
  ("sitz",        (["sit"],       "Mach ich!",            "happy")),
  ("sit",         (["sit"],       "Mach ich!",            "happy")),
  ("sit down",    (["sit"],       "Mach ich!",            "happy")),
  ("hinsetzen",   (["sit"],       "Jawohl!",              "happy")),
  ("setz dich",   (["sit"],       "Okay!",                "happy")),
  ("steh",        (["stand"],     "Bin schon oben!",      "happy")),
  ("steh auf",    (["stand"],     "Aufgestanden!",        "excited")),
  ("stand",       (["stand"],     "Stehe!",               "happy")),
  ("stand up",    (["stand"],     "Bin oben!",            "happy")),
  ("aufstehen",   (["stand"],     "Jawohl!",              "excited")),
  ("auf",         (["stand"],     "Bin wach!",            "happy")),
  ("platz",       (["lie"],       "Gemütlich!",           "sleepy")),
  ("leg dich",    (["lie"],       "Mach ich gerne.",      "sleepy")),
  ("leg dich hin",(["lie"],       "Schön hier unten.",    "sleepy")),
  ("lie",         (["lie"],       "Gemütlich!",           "sleepy")),
  ("lie down",    (["lie"],       "Hingelegt!",           "sleepy")),
  ("down",        (["lie"],       "Lege mich hin.",       "sleepy")),
  ("komm",        (["forward"],   "Ich komme!",           "excited")),
  ("komm her",    (["forward"],   "Bin gleich da!",       "excited")),
  ("komm hier",   (["forward"],   "Bin gleich da!",       "excited")),
  ("hierher",     (["forward"],   "Auf dem Weg!",         "excited")),
  ("come",        (["forward"],   "Ich komme!",           "excited")),
  ("come here",   (["forward"],   "Bin gleich da!",       "excited")),
  ("forward",     (["forward"],   "Los geht's!",         "happy")),
  ("vorwärts",    (["forward"],   "Marsch!",              "happy")),
  ("vor",         (["forward"],   "Vorwärts!",            "happy")),
  ("zurück",      (["backward"],  "Gehe zurück!",         "neutral")),
  ("back",        (["backward"],  "Rückwärts!",           "neutral")),
  ("backward",    (["backward"],  "Gehe zurück!",         "neutral")),
  ("go back",     (["backward"],  "Bin schon dabei!",     "neutral")),
  ("rückwärts",   (["backward"],  "Rückwärts marsch!",    "neutral")),
  ("links",       (["turn_left"], "Nach links!",          "happy")),
  ("turn left",   (["turn_left"], "Drehe mich links!",    "happy")),
  ("left",        (["turn_left"], "Links rum!",           "happy")),
  ("rechts",      (["turn_right"],"Nach rechts!",         "happy")),
  ("turn right",  (["turn_right"],"Drehe mich rechts!",   "happy")),
  ("right",       (["turn_right"],"Rechts rum!",          "happy")),
  ("wedel",       (["wag_tail"],  "Freude!",              "happy")),
  ("wedeln",      (["wag_tail"],  "Wedel wedel!",         "happy")),
  ("wag",         (["wag_tail"],  "Wedel wedel!",         "happy")),
  ("tail",        (["wag_tail"],  "Schwanzwedeln!",       "happy")),
  ("wag tail",    (["wag_tail"],  "So macht man das!",    "happy")),
  ("bell",        (["bark"],      "Wuff!",                "excited")),
  ("bellen",      (["bark"],      "Wuff wuff!",           "excited")),
  ("bark",        (["bark"],      "Wuff!",                "excited")),
  ("speak",       (["bark"],      "Wuff wuff!",           "excited")),
  ("stretch",     (["stretch"],   "Streck streck!",       "happy")),
  ("strecken",    (["stretch"],   "Das tut gut!",         "happy")),
  ("streck dich", (["stretch"],   "Ahhh, schön!",         "happy")),
  ("push up",     (["push_up"],   "Eins, zwei, drei!",    "proud")),
  ("pushup",      (["push_up"],   "Sport frei!",          "proud")),
  ("liegestütz",  (["push_up"],   "Fitness time!",        "proud")),
  ("liegestütze", (["push_up"],   "Na dann mal los!",     "proud")),
  ("heul",        (["howling"],   "Auuuuuu!",             "sad")),
  ("heulen",      (["howling"],   "Auuuuuuu!",            "sad")),
  ("howl",        (["howling"],   "Auuuuuu!",             "sad")),
  ("trab",        (["trot"],      "Trapp trapp!",         "happy")),
  ("traben",      (["trot"],      "Im Trab!",             "happy")),
  ("trot",        (["trot"],      "Trapp trapp trapp!",   "happy")),
  ("schlaf",      (["doze_off"],  "Gute Nacht...",        "sleepy")),
  ("schlafen",    (["doze_off"],  "Schlaf gut...",         "sleepy")),
  ("sleep",       (["doze_off"],  "Zzzzz...",             "sleepy")),
  ("nap",         (["doze_off"],  "Ein Nickerchen...",    "sleepy")),
  ("penn",        (["doze_off"],  "Augen zu...",          "sleepy")),
  ("kopf schütteln", (["shake_head"], "Nein nein!",      "confused")),
  ("schüttel",    (["shake_head"], "Nö!",                 "confused")),
  ("shake",       (["shake_head"], "Nein!",               "confused")),
  ("shake head",  (["shake_head"], "Kopfschütteln!",      "confused")),
  ("hecheln",     (["pant"],      "Hechel hechel!",       "happy")),
  ("hechel",      (["pant"],      "Hechel!",              "happy")),
  ("pant",        (["pant"],      "Hechel hechel!",       "happy")),
  ("nick",        (["nod"],       "Ja ja!",               "happy")),
  ("nicken",      (["nod"],       "Genau!",               "happy")),
  ("nod",         (["nod"],       "Jawohl!",              "happy")),
  ("braver hund", (["sit", "wag_tail"],  "Danke!",                   "love")),
  ("good boy",    (["sit", "wag_tail"],  "Danke! Das freut mich!",   "love")),
  ("good dog",    (["wag_tail"],         "Vielen Dank!",             "love")),
  ("guter hund",  (["sit", "wag_tail"],  "Das höre ich gerne!",      "love")),
  ("brav",        (["wag_tail"],         "Danke!",                   "love")),
  ("stopp",       (["stand"],     "Angehalten!",          "alert")),
  ("stop",        (["stand"],     "Stoppe!",              "alert")),
  ("halt",        (["stand"],     "Halt!",                "alert")),
  ("still",       (["stand"],     "Bin still.",           "neutral")),
  ("hallo",       (["wag_tail", "bark"], "Hallo! Schön dich zu sehen!", "excited")),
  ("hello",       (["wag_tail", "bark"], "Hallo!",                      "excited")),
  ("hi",          (["wag_tail"],         "Hi!",                         "happy")),
  ("hey",         (["wag_tail"],         "Hey!",                        "happy")),
  ("moin",        (["wag_tail", "bark"], "Moin moin!",                  "excited"))]

/-- Leading filler tokens stripped by `match_reflex` (checked once each,
in this order, against the successively cleaned string). -/
def NOISE_LEAD : List String :=
  ["nox ", "hey nox ", "nox, ", "hey nox, ", "okay ", "bitte ", "mal ", "please "]

/-- Trailing filler tokens stripped by `match_reflex`. -/
def NOISE_TRAIL : List String := [" bitte", " please", " mal"]

/-- Whitespace test used for Python's `str.strip`. -/
def isWS (c : Char) : Bool := c.isWhitespace

/-- Strip whitespace from both ends (Python `str.strip`). -/
def trimCL (l : List Char) : List Char :=
  ((l.dropWhile isWS).reverse.dropWhile isWS).reverse

/-- `leadMatch p l` holds when `p` is a leading run of `l`
(Python `str.startswith`; applied to reversed lists, `str.endswith`). -/
def leadMatch : List Char → List Char → Bool
  | [], _ => true
  | _ :: _, [] => false
  | p :: ps, c :: cs => p = c && leadMatch ps cs

/-- Normalization performed at the top of `match_reflex`: lowercase,
trim, strip leading fillers then trailing fillers (each list entry
checked once, in order, against the successively cleaned string,
re-trimming after each strip).  Python's full-Unicode `str.lower` is
modelled by per-character `Char.toLower`, which agrees on the table's
alphabet (ASCII; the non-ASCII trigger characters are already
lowercase). -/
def normalizeCL (l : List Char) : List Char :=
  let cleaned := trimCL (l.map Char.toLower)
  let cleaned := NOISE_LEAD.foldl
    (fun c noise =>
      if leadMatch noise.data c then trimCL (c.drop noise.length) else c)
    cleaned
  NOISE_TRAIL.foldl
    (fun c suf =>
      if leadMatch suf.data.reverse c.reverse then
        trimCL (c.take (c.length - suf.length))
      else c)
    cleaned

/-- String-level normalization. -/
def normalize (text : String) : String := String.mk (normalizeCL text.data)

/-- `abs(len(trigger) - len(cleaned))` on naturals. -/
def lenDiff (a b : Nat) : Nat := if b ≤ a then a - b else b - a

/-- Allowed fuzzy distance: 1 for triggers of length ≤ 5, else 2. -/
def maxDistFor (t : String) : Nat := if t.length ≤ 5 then 1 else 2

/-- A trigger qualifies as a fuzzy candidate for `cleaned`: length
difference at most 3 and edit distance within the allowed bound. -/
def qual (cleaned t : String) : Prop :=
  lenDiff t.length cleaned.length ≤ 3 ∧ levS cleaned t ≤ maxDistFor t

instance (cleaned t : String) : Decidable (qual cleaned t) := by
  unfold qual; exact instDecidableAnd

/-- One iteration of the fuzzy-match loop over the table, carrying
`(best_match, best_dist)`: skip when the lengths differ by more than 3,
otherwise update the best candidate when the distance is within the
allowed bound and strictly better than the best so far. -/
def fuzzyStep (cleaned : String) (acc : Option String × Nat)
    (kv : String × ReflexEntry) : Option String × Nat :=
  if lenDiff kv.1.length cleaned.length > 3 then acc
  else if levS cleaned kv.1 ≤ maxDistFor kv.1 ∧ levS cleaned kv.1 < acc.2 then
    (some kv.1, levS cleaned kv.1)
  else acc

/-- The fuzzy loop of `match_reflex`: fold over the table starting from
`best_match = None`, `best_dist = 999`, returning the best trigger. -/
def fuzzyBest (cleaned : String) : Option String :=
  (REFLEXES.foldl (fuzzyStep cleaned) (none, 999)).1

/-- `match_reflex` after normalization: exact table lookup, then the
fuzzy loop (only for cleaned length ≥ 3). -/
def match_reflex_cleaned (cleaned : String) : Option ReflexEntry :=
  match REFLEXES.lookup cleaned with
  | some e => some e
  | none =>
      if cleaned.length ≥ 3 then
        match fuzzyBest cleaned with
        | some t => REFLEXES.lookup t
        | none => none
      else none

/-- `match_reflex(text)`: normalize, then match. -/
def match_reflex (text : String) : Option ReflexEntry :=
  match_reflex_cleaned (normalize text)

/-- Selection rule stated by the spec for the fuzzy stage: walk the
table in order; among qualifying candidates keep the one with the
smallest distance, an earlier candidate winning ties.  Returns the
chosen trigger and its distance. -/
def selectBest (cleaned : String) : List (String × ReflexEntry) → Option (String × Nat)
  | [] => none
  | kv :: rest =>
      if qual cleaned kv.1 then
        match selectBest cleaned rest with
        | none => some (kv.1, levS cleaned kv.1)
        | some (t, d) =>
            if d < levS cleaned kv.1 then some (t, d)
            else some (kv.1, levS cleaned kv.1)
      else selectBest cleaned rest

/-- Combine an accumulator `(best_match, best_dist)` with the best
selection from the remainder of the table. -/
def mergeBest (acc : Option String × Nat) : Option (String × Nat) → Option String × Nat
  | none => acc
  | some (t, d) => if d < acc.2 then (some t, d) else acc


/-! ## Conversation state store -/

/-- One history entry `{"role": ..., "content": ...}`. -/
structure HistEntry where
  role : String
  content : String
deriving DecidableEq

/-- The eviction loop of `ConversationState.add_exchange`:
`while len(self._history) > self._max: pop(0); pop(0)`.  The store's
length is always even (entries are only ever added in user+assistant
pairs), so the two leading entries always exist when the loop runs. -/
def evict (maxEntries : Nat) : List HistEntry → List HistEntry
  | x :: y :: rest =>
      if (x :: y :: rest).length > maxEntries then evict maxEntries rest
      else x :: y :: rest
  | l => l

/-- `ConversationState.add_exchange(user_text, assistant_text)` on an
explicit history, where `maxEntries` is `self._max = max_exchanges * 2`:
append the user and assistant entries, then evict oldest pairs while
over the cap. -/
def add_exchange (maxEntries : Nat) (hist : List HistEntry)
    (u a : String) : List HistEntry :=
  evict maxEntries (hist ++ [⟨"user", u⟩, ⟨"assistant", a⟩])

/-- Replay a sequence of exchanges through `add_exchange`, starting
from the empty store of `ConversationState.__init__`. -/
def appendAll (maxEntries : Nat) (pairs : List (String × String)) : List HistEntry :=
  pairs.foldl (fun h p => add_exchange maxEntries h p.1 p.2) []

/-- The history entries corresponding to a list of exchanges, in
chronological order. -/
def toEntries : List (String × String) → List HistEntry
  | [] => []
  | p :: ps => ⟨"user", p.1⟩ :: ⟨"assistant", p.2⟩ :: toEntries ps

/-! ## Circuit breaker / dual-endpoint client -/

/-- Breaker states `CLOSED`, `OPEN`, `HALF_OPEN`. -/
inductive BState
  | closed
  | opened
  | halfOpen
deriving DecidableEq

/-- The mutable fields of `BridgeCircuitBreaker`.  `activeUrlTS` is
`False` for the LAN address (`BRIDGE_URL`, the initial value) and
`True` for the Tailscale address (`BRIDGE_URL_TS`). -/
structure Breaker where
  state : BState
  failures : Nat
  threshold : Nat
  retryInterval : Nat
  lastFailureTime : Nat
  activeUrlTS : Bool
deriving DecidableEq

/-- `BridgeCircuitBreaker(threshold=5, retry_interval=30.0)` starting
on the LAN URL. -/
def Breaker.init : Breaker :=
  { state := .closed, failures := 0, threshold := 5, retryInterval := 30
    lastFailureTime := 0, activeUrlTS := false }

/-- `record_success`: state to CLOSED, failure counter to zero. -/
def record_success (b : Breaker) : Breaker :=
  { b with state := .closed, failures := 0 }

/-- `record_failure` at time `now`: increment the counter, stamp the
failure time, and open the circuit when the threshold is reached. -/
def record_failure (b : Breaker) (now : Nat) : Breaker :=
  let b1 := { b with failures := b.failures + 1, lastFailureTime := now }
  if b1.failures ≥ b1.threshold then { b1 with state := .opened } else b1

/-- `can_attempt` at time `now`: CLOSED and HALF_OPEN allow the call;
OPEN allows it (moving to HALF_OPEN) only once the retry interval has
elapsed since the last failure. -/
def can_attempt (b : Breaker) (now : Nat) : Bool × Breaker :=
  match b.state with
  | .closed => (true, b)
  | .opened =>
      if now - b.lastFailureTime ≥ b.retryInterval then
        (true, { b with state := .halfOpen })
      else (false, b)
  | .halfOpen => (true, b)

/-- `try_failover`: toggle between the LAN and Tailscale addresses. -/
def try_failover (b : Breaker) : Breaker :=
  { b with activeUrlTS := !b.activeUrlTS }

/-- Iterate `record_failure` (consecutive failures at time `now`). -/
def record_failures (b : Breaker) (now : Nat) : Nat → Breaker
  | 0 => b
  | n + 1 => record_failures (record_failure b now) now n

/-- Result of one `bridge_get` / `bridge_post` call as far as the
breaker is concerned. -/
inductive CallOutcome
  | circuitOpen
  | ok
  | netError
deriving DecidableEq

/-- The breaker discipline shared by `bridge_get` and `bridge_post`:
check `can_attempt`; if rejected return the synthetic circuit-open
error without a network attempt; otherwise perform the request (whose
success is the environment parameter `netOk`), record the outcome, and
on the failure path fail over to the other endpoint exactly when the
failure counter has just reached 2.  Returns the outcome, the updated
breaker, and whether a network attempt was made. -/
def bridge_call (b : Breaker) (now : Nat) (netOk : Bool) :
    CallOutcome × Breaker × Bool :=
  let r := can_attempt b now
  if r.1 then
    if netOk then (.ok, record_success r.2, true)
    else
      let b2 := record_failure r.2 now
      let b3 := if b2.failures = 2 then try_failover b2 else b2
      (.netError, b3, true)
  else (.circuitOpen, r.2, false)

/-- Reachability invariant of the breaker: OPEN and HALF_OPEN states
always carry at least `threshold` recorded failures. -/
def BreakerInv (b : Breaker) : Prop :=
  (b.state = .opened ∨ b.state = .halfOpen) → b.threshold ≤ b.failures

/-! ## Emotion table and combo builder -/

/-- One RGB directive `{"r", "g", "b", "mode", "bps"}`; `bps` is a
rational (the source uses decimal literals). -/
structure Rgbd where
  r : Nat
  g : Nat
  b : Nat
  mode : String
  bps : ℚ
deriving DecidableEq

/-- The `EMOTION_RGB` table. -/
def EMOTION_RGB : List (String × Rgbd) := [
  ("happy",    ⟨0,   255, 0,   "breath", 1.5⟩),
  ("sad",      ⟨0,   0,   128, "breath", 0.3⟩),
  ("curious",  ⟨0,   255, 255, "breath", 1.0⟩),
  ("excited",  ⟨255, 255, 0,   "boom",   2.0⟩),
  ("alert",    ⟨255, 100, 0,   "boom",   1.5⟩),
  ("sleepy",   ⟨0,   0,   80,  "breath", 0.3⟩),
  ("love",     ⟨255, 50,  150, "breath", 1.0⟩),
  ("think",    ⟨128, 0,   255, "breath", 0.8⟩),
  ("neutral",  ⟨128, 0,   255, "breath", 0.8⟩),
  ("proud",    ⟨255, 200, 0,   "breath", 1.2⟩),
  ("confused", ⟨255, 128, 0,   "breath", 0.6⟩),
  ("scared",   ⟨255, 0,   0,   "boom",   2.5⟩)]

/-- The combo payload assembled by `send_combo` (absent keys are
`none`). -/
structure Combo where
  actions : Option (List String)
  speak : Option String
  rgb : Option Rgbd
deriving DecidableEq

/-- Python truthiness of the `actions` argument (`None` and `[]` are
falsy). -/
def truthyList : Option (List String) → Bool
  | some l => !l.isEmpty
  | none => false

/-- Python truthiness of the `speak` argument (`None` and `""` are
falsy). -/
def truthyStr : Option String → Bool
  | some s => !s.isEmpty
  | none => false

/-- The combo-building part of `send_combo`: include `actions` and
`speak` only when truthy; `rgb` is the explicit dict when supplied
(`none` models `None`, a falsy dict, or a non-dict value, all of which
fail the `rgb and isinstance(rgb, dict)` guard), else the emotion's
table entry when the emotion is truthy and known, else the neutral
entry. -/
def build_combo (actions : Option (List String)) (speak : Option String)
    (emotion : Option String) (rgb : Option Rgbd) : Combo :=
  { actions := if truthyList actions then actions else none
    speak := if truthyStr speak then speak else none
    rgb :=
      match rgb with
      | some r => some r
      | none =>
          match emotion with
          | some e =>
              if e.isEmpty then EMOTION_RGB.lookup "neutral"
              else
                match EMOTION_RGB.lookup e with
                | some v => some v
                | none => EMOTION_RGB.lookup "neutral"
          | none => EMOTION_RGB.lookup "neutral" }

/-- Outcome of `send_combo` before the outbound post: either the
"empty combo" error or a combo to send. -/
inductive ComboResult
  | emptyErr
  | sent (c : Combo)
deriving DecidableEq

/-- `send_combo` up to the outbound call: build the combo and take the
`if not combo` error branch when no field was set. -/
def send_combo (actions : Option (List String)) (speak : Option String)
    (emotion : Option String) (rgb : Option Rgbd) : ComboResult :=
  let combo := build_combo actions speak emotion rgb
  if combo.actions = none ∧ combo.speak = none ∧ combo.rgb = none then
    .emptyErr
  else .sent combo

/-! ## JSON values and a model of the reply parser -/

/-- A JSON value.  Numbers keep their lexeme: the relay never inspects
numeric values, only parse success matters. -/
inductive Json
  | null
  | bool (b : Bool)
  | num (lexeme : String)
  | str (s : String)
  | arr (elems : List Json)
  | obj (fields : List (String × Json))

/-- The first key of a JSON object, used to tell objects apart. -/
def Json.firstKey : Json → Option String
  | .obj ((k, _) :: _) => some k
  | _ => none

/-- JSON inter-token whitespace (as accepted by Python's json). -/
def jsonWS (c : Char) : Bool := c = ' ' || c = '\t' || c = '\n' || c = '\r'

/-- Skip leading JSON whitespace. -/
def skipWS : List Char → List Char
  | c :: cs => if jsonWS c then skipWS cs else c :: cs
  | [] => []

/-- Value of one hexadecimal digit. -/
def hexVal (c : Char) : Option Nat :=
  if '0' ≤ c ∧ c ≤ '9' then some (c.toNat - '0'.toNat)
  else if 'a' ≤ c ∧ c ≤ 'f' then some (c.toNat - 'a'.toNat + 10)
  else if 'A' ≤ c ∧ c ≤ 'F' then some (c.toNat - 'A'.toNat + 10)
  else none

/-- Parse the remainder of a JSON string literal (after the opening
quote): the decoded characters and the input after the closing quote.
Escapes as in Python's json; a `\u` escape builds its code point
directly (surrogate pairs are not recombined — irrelevant here). -/
def parseStrBody : List Char → Option (List Char × List Char)
  | [] => none
  | c :: cs =>
      if c = '"' then some ([], cs)
      else if c = '\\' then
        match cs with
        | [] => none
        | e :: cs2 =>
            if e = 'u' then
              match cs2 with
              | h1 :: h2 :: h3 :: h4 :: rest =>
                  match hexVal h1, hexVal h2, hexVal h3, hexVal h4 with
                  | some a, some b, some c2, some d =>
                      match parseStrBody rest with
                      | some (tail, rem) =>
                          some (Char.ofNat
                            (((a * 16 + b) * 16 + c2) * 16 + d) :: tail, rem)
                      | none => none
                  | _, _, _, _ => none
              | _ => none
            else
              let dec : Option Char :=
                if e = '"' then some '"'
                else if e = '\\' then some '\\'
                else if e = '/' then some '/'
                else if e = 'b' then some (Char.ofNat 8)
                else if e = 'f' then some (Char.ofNat 12)
                else if e = 'n' then some '\n'
                else if e = 'r' then some '\r'
                else if e = 't' then some '\t'
                else none
              match dec with
              | some d =>
                  match parseStrBody cs2 with
                  | some (tail, rem) => some (d :: tail, rem)
                  | none => none
              | none => none
      else if c.toNat < 32 then none
      else
        match parseStrBody cs with
        | some (tail, rem) => some (c :: tail, rem)
        | none => none

/-- Take a maximal run of decimal digits. -/
def takeDigits : List Char → List Char × List Char
  | c :: cs =>
      if c.isDigit then
        let (d, r) := takeDigits cs
        (c :: d, r)
      else ([], c :: cs)
  | [] => ([], [])

/-- Parse the optional fraction and exponent of a number lexeme. -/
def withFracExp (acc : List Char) (r : List Char) :
    Option (List Char × List Char) :=
  let step1 : Option (List Char × List Char) :=
    match r with
    | '.' :: cs =>
        match takeDigits cs with
        | ([], _) => none
        | (ds, r2) => some (acc ++ '.' :: ds, r2)
    | _ => some (acc, r)
  match step1 with
  | none => none
  | some (acc2, r2) =>
      match r2 with
      | e :: cs =>
          if e = 'e' ∨ e = 'E' then
            let (sgn, cs2) :=
              match cs with
              | '+' :: t => (['+'], t)
              | '-' :: t => (['-'], t)
              | _ => (([] : List Char), cs)
            match takeDigits cs2 with
            | ([], _) => none
            | (ds, r3) => some (acc2 ++ e :: (sgn ++ ds), r3)
          else some (acc2, r2)
      | [] => some (acc2, [])

/-- Parse a JSON number lexeme (strict grammar, as Python's json). -/
def parseNumLex (input : List Char) : Option (List Char × List Char) :=
  let (sign, afterSign) :=
    match input with
    | '-' :: cs => ((['-'] : List Char), cs)
    | _ => (([] : List Char), input)
  match afterSign with
  | [] => none
  | c :: cs =>
      if c = '0' then
        match cs with
        | d :: _ =>
            if d.isDigit then none else withFracExp (sign ++ ['0']) cs
        | [] => withFracExp (sign ++ ['0']) []
      else if c.isDigit then
        match takeDigits cs with
        | (ds, r) => withFracExp (sign ++ c :: ds) r
      else none

/-- Parsing continuation: a plain value, the elements of an array after
the opening bracket (with the elements parsed so far), or the members
of an object after the opening brace. -/
inductive PMode
  | value
  | arrElems (acc : List Json)
  | objFields (acc : List (String × Json))

/-- Recursive JSON parser over explicit fuel (structural, so that it
evaluates in the kernel). -/
def parseJ : Nat → PMode → List Char → Option (Json × List Char)
  | 0, _, _ => none
  | fuel + 1, .value, input =>
      match skipWS input with
      | [] => none
      | c :: cs =>
          if c = '\x7b' then
            match skipWS cs with
            | '\x7d' :: rest => some (.obj [], rest)
            | rest2 => parseJ fuel (.objFields []) rest2
          else if c = '[' then
            match skipWS cs with
            | ']' :: rest => some (.arr [], rest)
            | rest2 => parseJ fuel (.arrElems []) rest2
          else if c = '"' then
            match parseStrBody cs with
            | some (s, rest) => some (.str (String.mk s), rest)
            | none => none
          else if leadMatch ('n' :: ['u', 'l', 'l']) (c :: cs) then
            some (.null, (c :: cs).drop 4)
          else if leadMatch ('t' :: ['r', 'u', 'e']) (c :: cs) then
            some (.bool true, (c :: cs).drop 4)
          else if leadMatch ('f' :: ['a', 'l', 's', 'e']) (c :: cs) then
            some (.bool false, (c :: cs).drop 5)
          else
            match parseNumLex (c :: cs) with
            | some (lex, rest) => some (.num (String.mk lex), rest)
            | none => none
  | fuel + 1, .arrElems acc, input =>
      match parseJ fuel .value input with
      | none => none
      | some (v, rest) =>
          match skipWS rest with
          | ',' :: rest2 => parseJ fuel (.arrElems (acc ++ [v])) rest2
          | ']' :: rest2 => some (.arr (acc ++ [v]), rest2)
          | _ => none
  | fuel + 1, .objFields acc, input =>
      match skipWS input with
      | '"' :: cs =>
          match parseStrBody cs with
          | none => none
          | some (k, rest) =>
              match skipWS rest with
              | ':' :: rest2 =>
                  match parseJ fuel .value rest2 with
                  | none => none
                  | some (v, rest3) =>
                      match skipWS rest3 with
                      | ',' :: rest4 =>
                          parseJ fuel
                            (.objFields (acc ++ [(String.mk k, v)])) rest4
                      | '\x7d' :: rest4 =>
                          some (.obj (acc ++ [(String.mk k, v)]), rest4)
                      | _ => none
              | _ => none
      | _ => none

/-- Model of Python's `json.loads` on a character list: parse one value
and require only whitespace to remain (otherwise "Extra data"). -/
def jloadsL (l : List Char) : Option Json :=
  match parseJ (2 * l.length + 4) .value l with
  | some (j, rest) => if (skipWS rest).isEmpty then some j else none
  | none => none

/-- `json.loads` on a string. -/
def jloads (s : String) : Option Json := jloadsL s.data

/-- Index of the first occurrence of `needle`, if any. -/
def findSub (needle : List Char) : List Char → Option Nat
  | [] => if needle.isEmpty then some 0 else none
  | c :: cs =>
      if leadMatch needle (c :: cs) then some 0
      else
        match findSub needle cs with
        | some i => some (i + 1)
        | none => none

/-- Python `s.split(sep, 1)`: the parts before and after the first
occurrence of `sep`, when present. -/
def splitOnce (l sep : List Char) : Option (List Char × List Char) :=
  match findSub sep l with
  | some i => some (l.take i, l.drop (i + sep.length))
  | none => none

/-- Index of the first occurrence of a character (Python `str.find`). -/
def firstIdx (c : Char) : List Char → Option Nat
  | [] => none
  | x :: xs =>
      if x = c then some 0
      else
        match firstIdx c xs with
        | some i => some (i + 1)
        | none => none

/-- Index of the last occurrence of a character (Python `str.rfind`). -/
def lastIdx (c : Char) (l : List Char) : Option Nat :=
  match firstIdx c l.reverse with
  | some i => some (l.length - 1 - i)
  | none => none

/-- The fenced-code-block extraction of `_parse_json_response`: the
text after the first fence marker and before the following triple
backtick, when fences are present. -/
def fencedExtract (t : List Char) : List Char :=
  match splitOnce t ("```json".data) with
  | some (_, after) =>
      match splitOnce after ("```".data) with
      | some (before, _) => before
      | none => after
  | none =>
      match splitOnce t ("```".data) with
      | some (_, after1) =>
          match splitOnce after1 ("```".data) with
          | some (before, _) => before
          | none => after1
      | none => t

/-- The first-brace-to-last-brace slice attempted by
`_parse_json_response` (`text.find`, `text.rfind`, guarded by
`end > start`). -/
def braceSlice (t : List Char) : Option (List Char) :=
  match firstIdx '\x7b' t, lastIdx '\x7d' t with
  | some s, some e =>
      if s < e then some ((t.drop s).take (e + 1 - s)) else none
  | _, _ => none

/-- The speech-only fallback directive: raw stripped text truncated to
200 characters, empty actions, neutral mood. -/
def fallbackDirective (t : List Char) : Json :=
  .obj [("speak", .str (String.mk ((trimCL t).take 200))),
        ("actions", .arr []),
        ("emotion", .str "neutral")]

/-- `_parse_json_response`: direct parse of the stripped text, then the
fenced-block extraction, then the first-brace-to-last-brace slice, and
finally the speech-only fallback. -/
def _parse_json_response (text : String) : Json :=
  match jloadsL (trimCL text.data) with
  | some j => j
  | none =>
      match jloadsL (trimCL (fencedExtract text.data)) with
      | some j => j
      | none =>
          match braceSlice text.data with
          | some sub =>
              match jloadsL sub with
              | some j => j
              | none => fallbackDirective text.data
          | none => fallbackDirective text.data

/-- Reference following the spec's words, for comparison with
`braceSlice`: extract the first balanced top-level object (simple depth
counter; braces inside string literals are not special-cased, which is
adequate for the inputs considered). -/
def specBalancedAux : Nat → List Char → List Char → Option (List Char)
  | _, _, [] => none
  | depth, acc, c :: cs =>
      if c = '\x7b' then specBalancedAux (depth + 1) (acc ++ [c]) cs
      else if c = '\x7d' then
        if depth = 1 then some (acc ++ [c])
        else specBalancedAux (depth - 1) (acc ++ [c]) cs
      else specBalancedAux depth (acc ++ [c]) cs

/-- Reference following the spec's words: the first balanced top-level
object embedded in loose text. -/
def specFirstBalancedObject : List Char → Option (List Char)
  | [] => none
  | c :: cs =>
      if c = '\x7b' then specBalancedAux 1 [c] cs
      else specFirstBalancedObject cs

/-! ## Tiered dispatch orchestrator and single-flight gate -/

/-- `AGENT_KEYWORDS`, in source order (duplicates preserved). -/
def AGENT_KEYWORDS : List String := [
  "wetter", "weather", "temperatur", "temperature", "regen", "rain",
  "schnee", "snow", "wind", "sturm", "storm", "forecast", "vorhersage",
  "uhrzeit", "time", "wie spät", "what time", "datum", "date",
  "welcher tag", "what day", "wochentag",
  "kalender", "calendar", "termin", "appointment", "meeting",
  "was steht an", "what's next", "schedule", "zeitplan",
  "email", "e-mail", "mail", "nachricht", "message", "posteingang", "inbox",
  "suche", "such", "search", "google", "nachricht", "news", "nachrichten",
  "was ist", "what is", "wer ist", "who is", "erkläre", "explain",
  "wikipedia", "wiki", "definition",
  "licht", "light", "heizung", "heating", "thermostat"]

/-- The vision keywords checked in the Tier-2 context step. -/
def VISION_WORDS : List String := [
  "siehst", "sehen", "schau", "guck", "kamera", "foto",
  "see", "look", "watch", "camera", "photo",
  "wer ist", "who is", "was ist da", "what's there"]

/-- Python's `sub in s` (substring containment). -/
def substrContains (s sub : String) : Bool := (findSub sub.data s.data).isSome

/-- Lowercase a string per character (cf. `normalize`). -/
def lowerS (s : String) : String := String.mk (s.data.map Char.toLower)

/-- `needs_agent`: case-insensitive substring scan over the keyword
list. -/
def needs_agent (text : String) : Bool :=
  AGENT_KEYWORDS.any (fun kw => substrContains (lowerS text) kw)

/-- Python truthiness of a JSON value. -/
def Json.truthy : Json → Bool
  | .null => false
  | .bool b => b
  | .num lex => !(lex = "0" || lex = "-0" || lex = "0.0" || lex = "-0.0")
  | .str s => !s.isEmpty
  | .arr es => !es.isEmpty
  | .obj fs => !fs.isEmpty

/-- Whether the value is a JSON object (a Python dict — non-dicts make
`result.get(...)` raise). -/
def Json.isObj : Json → Bool
  | .obj _ => true
  | _ => false

/-- `result.get(k)` on a parsed reply. -/
def Json.getField (j : Json) (k : String) : Option Json :=
  match j with
  | .obj fields => fields.lookup k
  | _ => none

/-- `result.get(k, d)` restricted to string values; non-string payload
values are abstracted to the default (the claims below concern only
call/append structure, not payload contents). -/
def Json.getStrD (j : Json) (k d : String) : String :=
  match j.getField k with
  | some (.str s) => s
  | _ => d

/-- `result.get("actions", [])`, keeping the string elements. -/
def Json.getActions (j : Json) : List String :=
  match j.getField "actions" with
  | some (.arr es) =>
      es.filterMap (fun e =>
        match e with
        | .str s => some s
        | _ => none)
  | _ => []

/-- Whether `result.get("rgb")` passes `send_combo`'s
`rgb and isinstance(rgb, dict)` guard (a truthy dict). -/
def Json.rgbGiven (j : Json) : Bool :=
  match j.getField "rgb" with
  | some (.obj fs) => !fs.isEmpty
  | _ => false

/-- Abstract outcomes of the external calls one dispatch may make.
`chatContent`/`agentContent` are the reply contents of the two
language-model calls (`none` models a connection error or empty
content); the remaining fields describe the actuation endpoint's
status/look replies (an erroneous or circuit-rejected call is modelled
as not ok). -/
structure Env where
  chatContent : Option String
  agentContent : Option String
  statusOk : Bool
  battStr : String
  battTruthy : Bool
  charging : Bool
  lookOk : Bool
  faces : List String

/-- One outbound call recorded during a dispatch.  `comboCall` records
the arguments handed to `send_combo` (whose own behavior is modelled
separately), with `rgbGiven` the truthy-dict flag of the rgb
argument. -/
inductive OutCall
  | speakPost (text : String)
  | statusGet
  | lookGet
  | comboCall (actions : List String) (speak : String) (emotion : String)
      (rgbGiven : Bool)
deriving DecidableEq

/-- `call_clawdbot_chat(user_text, context)`: `None` on connection
error or empty content, else the parsed reply.  The reply content is
supplied by the environment (the external model may answer anything,
whatever the prompt). -/
def call_clawdbot_chat (env : Env) (userText context : String) : Option Json :=
  match env.chatContent with
  | none => none
  | some c => if c.isEmpty then none else some (_parse_json_response c)

/-- `call_agent(user_text)`: as `call_clawdbot_chat`, for the
tool-augmented call. -/
def call_agent (env : Env) (userText : String) : Option Json :=
  match env.agentContent with
  | none => none
  | some c => if c.isEmpty then none else some (_parse_json_response c)

/-- The `if result:` truthiness gate applied to a tier's reply: a falsy
parsed value is treated like a failed call. -/
def effectiveReply : Option Json → Option Json
  | some j => if j.truthy then some j else none
  | none => none

/-- The Tier-2 context gathering: a `/status` call (battery context)
plus, when the utterance contains a vision keyword, a `/look` call
(faces context).  Returns the context string and the outbound calls
made. -/
def buildContext (env : Env) (text : String) : String × List OutCall :=
  let context1 : String :=
    if env.statusOk then
      if env.charging then "Batterie: " ++ env.battStr ++ "V (lade gerade)"
      else if env.battTruthy then "Batterie: " ++ env.battStr ++ "V"
      else ""
    else ""
  if VISION_WORDS.any (fun w => substrContains (lowerS text) w) then
    if env.lookOk then
      if env.faces.isEmpty then
        (context1 ++ ". Du siehst niemanden vor dir.", [.statusGet, .lookGet])
      else
        (context1 ++ ". Du siehst " ++ toString env.faces.length
            ++ " Gesicht(er): " ++ String.intercalate ", " env.faces,
          [.statusGet, .lookGet])
    else (context1, [.statusGet, .lookGet])
  else (context1, [.statusGet])

/-- Result of one `_process_voice_inner` dispatch: the updated
conversation history and the trace of outbound calls; `crashed` marks
the paths where the Python code raises (a truthy non-dict reply makes
`result.get` raise `AttributeError`), which the caller's handler turns
into an error speech — the history is never touched on those paths. -/
inductive InnerOutcome
  | done (hist : List HistEntry) (calls : List OutCall)
  | crashed (hist : List HistEntry) (calls : List OutCall)
deriving DecidableEq

/-- The conversation history after the dispatch. -/
def InnerOutcome.hist : InnerOutcome → List HistEntry
  | .done h _ => h
  | .crashed h _ => h

/-- `_process_voice_inner`: Tier 1 (reflex, no history change), else
Tier 3 when the keyword classifier fires (filler speech, agent call),
falling back to Tier 2 (context gathering, chat call), with the fixed
apology on total failure.  The fire-and-forget `check_sensors` thread
touches neither the conversation nor this dispatch and is omitted. -/
def _process_voice_inner (env : Env) (maxEntries : Nat)
    (hist : List HistEntry) (text : String) : InnerOutcome :=
  match match_reflex text with
  | some (actions, speak, emotion) =>
      .done hist [.comboCall actions speak emotion false]
  | none =>
      let pre : List OutCall :=
        if needs_agent text then [.speakPost "Moment, ich schaue mal nach..."]
        else []
      let agentEff : Option Json :=
        if needs_agent text then effectiveReply (call_agent env text) else none
      match agentEff with
      | some j =>
          if j.isObj then
            .done (add_exchange maxEntries hist text (j.getStrD "speak" ""))
              (pre ++ [.comboCall j.getActions (j.getStrD "speak" "")
                (j.getStrD "emotion" "think") j.rgbGiven])
          else .crashed hist pre
      | none =>
          let ctx := buildContext env text
          match effectiveReply (call_clawdbot_chat env text ctx.1) with
          | some j =>
              if j.isObj then
                .done (add_exchange maxEntries hist text (j.getStrD "speak" ""))
                  (pre ++ ctx.2 ++ [.comboCall j.getActions
                    (j.getStrD "speak" "") (j.getStrD "emotion" "neutral")
                    j.rgbGiven])
              else .crashed hist (pre ++ ctx.2)
          | none =>
              .done hist (pre ++ ctx.2 ++
                [.comboCall []
                  "Entschuldigung, mein Gehirn ist gerade offline. Versuche einfache Befehle wie sitz oder komm."
                  "sad" false])

/-- The externally visible state around the single-flight gate: the
gate bit (`_processing_lock` held), the shared conversation history and
the cumulative trace of outbound calls. -/
structure SysState where
  busy : Bool
  hist : List HistEntry
  trace : List OutCall
deriving DecidableEq

/-- Events at the gate: a voice push arriving (with the environment its
dispatch would see) and the completion of the in-flight dispatch. -/
inductive GateEvent
  | arrive (env : Env) (text : String)
  | complete

/-- `process_voice` under the single-flight gate: an empty (stripped)
text is ignored; an arrival while the gate is held is dropped with no
effect at all (the dropped thread performs no operation); otherwise the
dispatch runs — its effects are those of `_process_voice_inner`, with a
crash turned into the handler's error speech — and holds the gate until
`complete`. -/
def stepGate (maxEntries : Nat) (s : SysState) : GateEvent → SysState
  | .arrive env text =>
      let cleaned := String.mk (trimCL text.data)
      if cleaned.isEmpty then s
      else if s.busy then s
      else
        match _process_voice_inner env maxEntries s.hist cleaned with
        | .done h calls => { busy := true, hist := h, trace := s.trace ++ calls }
        | .crashed h calls =>
            { busy := true, hist := h,
              trace := s.trace ++ calls ++
                [.speakPost "Da ist etwas schiefgegangen. Versuch es nochmal."] }
  | .complete => { s with busy := false }

/-! ## Theorems -/

-- Basic facts about `lev`.

theorem lev_nil_left (ys : List Char) : lev [] ys = ys.length := by
  cases ys <;> simp [lev]

theorem lev_nil_right (xs : List Char) : lev xs [] = xs.length := by
  cases xs <;> simp [lev]

theorem lev_cons_cons (x y : Char) (xs ys : List Char) :
    lev (x :: xs) (y :: ys) =
      min (min (lev xs (y :: ys) + 1) (lev (x :: xs) ys + 1))
          (lev xs ys + subCost x y) := by
  simp [lev]

/-- Appending one character to the back of each argument satisfies the
same min-recurrence as prepending to the front. -/
theorem lev_snoc (a b : Char) (as bs : List Char) :
    lev (as ++ [a]) (bs ++ [b]) =
      min (min (lev as (bs ++ [b]) + 1) (lev (as ++ [a]) bs + 1))
          (lev as bs + subCost a b) := by
  have key : ∀ n (as bs : List Char), as.length + bs.length ≤ n →
      lev (as ++ [a]) (bs ++ [b]) =
        min (min (lev as (bs ++ [b]) + 1) (lev (as ++ [a]) bs + 1))
            (lev as bs + subCost a b) := by
    intro n
    induction n with
    | zero =>
        intro as bs h
        have ha : as = [] := by cases as <;> simp_all
        have hb : bs = [] := by cases bs <;> simp_all
        subst ha; subst hb
        simp only [List.nil_append]
        simp only [lev_cons_cons]
    | succ n ih =>
        intro as bs h
        cases as with
        | nil =>
            cases bs with
            | nil =>
                simp only [List.nil_append]
                simp only [lev_cons_cons]
            | cons b' bs =>
                have ihx := ih [] bs (by simp at h ⊢; omega)
                simp only [List.nil_append, List.cons_append] at ihx ⊢
                simp only [lev_cons_cons]
                simp only [lev_nil_left, lev_nil_right, List.length_append,
                  List.length_cons, List.length_nil] at ihx ⊢
                rw [ihx]
                omega
        | cons a' as =>
            cases bs with
            | nil =>
                have ihx := ih as [] (by simp at h ⊢; omega)
                simp only [List.nil_append, List.cons_append] at ihx ⊢
                simp only [lev_cons_cons]
                simp only [lev_nil_left, lev_nil_right, List.length_append,
                  List.length_cons, List.length_nil] at ihx ⊢
                rw [ihx]
                omega
            | cons b' bs' =>
                have ih1 := ih as bs' (by simp at h ⊢; omega)
                have ih2 := ih (a' :: as) bs' (by simp at h ⊢; omega)
                have ih3 := ih as (b' :: bs') (by simp at h ⊢; omega)
                simp only [List.nil_append, List.cons_append] at ih1 ih2 ih3 ⊢
                simp only [lev_cons_cons]
                rw [ih1, ih2, ih3]
                generalize lev as (b' :: (bs' ++ [b])) = P
                generalize lev (a' :: as) (bs' ++ [b]) = Q
                generalize lev as (bs' ++ [b]) = R
                generalize lev as (b' :: bs') = S
                generalize lev (a' :: as) bs' = T
                generalize lev as bs' = U
                generalize lev (as ++ [a]) (b' :: bs') = V
                generalize lev (a' :: (as ++ [a])) bs' = W
                generalize lev (as ++ [a]) bs' = X
                generalize subCost a b = D
                apply le_antisymm <;>
                  · simp only [le_min_iff, min_le_iff]
                    and_intros <;> omega
  exact key (as.length + bs.length) as bs le_rfl

/-- Edit distance is invariant under reversing both arguments. -/
theorem lev_reverse (xs ys : List Char) :
    lev xs.reverse ys.reverse = lev xs ys := by
  have key : ∀ n (xs ys : List Char), xs.length + ys.length ≤ n →
      lev xs.reverse ys.reverse = lev xs ys := by
    intro n
    induction n with
    | zero =>
        intro xs ys h
        have hx : xs = [] := by cases xs <;> simp_all
        have hy : ys = [] := by cases ys <;> simp_all
        subst hx; subst hy; rfl
    | succ n ih =>
        intro xs ys h
        cases xs with
        | nil => simp [lev_nil_left]
        | cons x xs =>
            cases ys with
            | nil => simp [lev_nil_right]
            | cons y ys =>
                rw [show (x :: xs).reverse = xs.reverse ++ [x] by simp,
                    show (y :: ys).reverse = ys.reverse ++ [y] by simp,
                    lev_snoc x y xs.reverse ys.reverse]
                rw [show ys.reverse ++ [y] = (y :: ys).reverse by simp,
                    show xs.reverse ++ [x] = (x :: xs).reverse by simp]
                rw [ih xs (y :: ys) (by simp at h ⊢; omega),
                    ih (x :: xs) ys (by simp at h ⊢; omega),
                    ih xs ys (by simp at h ⊢; omega)]
                rw [lev_cons_cons]
  exact key (xs.length + ys.length) xs ys le_rfl

/-- Edit distance is symmetric. -/
theorem lev_comm (xs ys : List Char) : lev xs ys = lev ys xs := by
  have key : ∀ n (xs ys : List Char), xs.length + ys.length ≤ n →
      lev xs ys = lev ys xs := by
    intro n
    induction n with
    | zero =>
        intro xs ys h
        have hx : xs = [] := by cases xs <;> simp_all
        have hy : ys = [] := by cases ys <;> simp_all
        subst hx; subst hy; rfl
    | succ n ih =>
        intro xs ys h
        cases xs with
        | nil => simp [lev_nil_left, lev_nil_right]
        | cons x xs =>
            cases ys with
            | nil => simp [lev_nil_left, lev_nil_right]
            | cons y ys =>
                rw [lev_cons_cons, lev_cons_cons,
                    ih xs (y :: ys) (by simp at h ⊢; omega),
                    ih (x :: xs) ys (by simp at h ⊢; omega),
                    ih xs ys (by simp at h ⊢; omega)]
                have hs : subCost x y = subCost y x := by
                  by_cases hxy : x = y
                  · simp [subCost, hxy]
                  · have hyx : ¬ y = x := fun hyx => hxy hyx.symm
                    simp [subCost, hxy, hyx]
                omega
  exact key (xs.length + ys.length) xs ys le_rfl

theorem rowAux_nil_eq_range' (s2 : List Char) :
    ∀ B : List Char, rowAux [] B s2 = List.range' (B.length + 1) s2.length := by
  induction s2 with
  | nil => intro B; rfl
  | cons c2 rest ih =>
      intro B
      rw [show rowAux [] B (c2 :: rest)
            = lev [] (c2 :: B) :: rowAux [] (c2 :: B) rest from rfl]
      rw [ih (c2 :: B), lev_nil_left]
      simp [List.range'_succ]

theorem rowFor_nil (s2 : List Char) :
    rowFor [] s2 = List.range (s2.length + 1) := by
  rw [rowFor, rowAux_nil_eq_range', lev_nil_left, List.range_eq_range']
  simp [List.range'_succ]

theorem nextRow_spec (c1 : Char) (A : List Char) (s2 : List Char) :
    ∀ B : List Char,
      nextRowAux c1 s2 (lev A B :: rowAux A B s2) (lev (c1 :: A) B) =
        rowAux (c1 :: A) B s2 := by
  induction s2 with
  | nil => intro B; rfl
  | cons c2 rest ih =>
      intro B
      rw [show rowAux A B (c2 :: rest)
            = lev A (c2 :: B) :: rowAux A (c2 :: B) rest from rfl]
      rw [show nextRowAux c1 (c2 :: rest)
              (lev A B :: lev A (c2 :: B) :: rowAux A (c2 :: B) rest)
              (lev (c1 :: A) B)
            = (min (min (lev A (c2 :: B) + 1) (lev (c1 :: A) B + 1))
                   (lev A B + subCost c1 c2))
              :: nextRowAux c1 rest (lev A (c2 :: B) :: rowAux A (c2 :: B) rest)
                   (min (min (lev A (c2 :: B) + 1) (lev (c1 :: A) B + 1))
                        (lev A B + subCost c1 c2)) from rfl]
      rw [← lev_cons_cons, ih (c2 :: B)]
      rfl

theorem rowAux_getLastD (A : List Char) (s2 : List Char) :
    ∀ (B : List Char) (d : Nat),
      (lev A B :: rowAux A B s2).getLastD d = lev A (s2.reverse ++ B) := by
  induction s2 with
  | nil => intro B d; simp [rowAux]
  | cons c2 rest ih =>
      intro B d
      rw [show rowAux A B (c2 :: rest)
            = lev A (c2 :: B) :: rowAux A (c2 :: B) rest from rfl]
      rw [List.getLastD_cons, ih (c2 :: B) (lev A B)]
      simp

theorem currRow_rowFor (c1 : Char) (A s2 : List Char) :
    currRow c1 A.length (rowFor A s2) s2 = rowFor (c1 :: A) s2 := by
  rw [currRow, rowFor, rowFor]
  rw [show A.length + 1 = lev (c1 :: A) [] by rw [lev_nil_right]; rfl]
  rw [nextRow_spec]

theorem levLoop_rowFor (s2 : List Char) :
    ∀ s1 A : List Char,
      levLoop s2 s1 A.length (rowFor A s2) = rowFor (s1.reverse ++ A) s2 := by
  intro s1
  induction s1 with
  | nil => intro A; simp [levLoop]
  | cons c1 rest ih =>
      intro A
      rw [show levLoop s2 (c1 :: rest) A.length (rowFor A s2)
            = levLoop s2 rest (A.length + 1)
                (currRow c1 A.length (rowFor A s2) s2) from rfl]
      rw [currRow_rowFor]
      rw [show A.length + 1 = (c1 :: A).length from rfl, ih (c1 :: A)]
      simp

/-- The row-based DP computes the edit distance of the reversed inputs
(hence, by `lev_reverse`, of the inputs). -/
theorem levCore_eq (s1 s2 : List Char) :
    levCore s1 s2 = lev s1.reverse s2.reverse := by
  rw [levCore]
  by_cases h : s2.length = 0
  · have : s2 = [] := List.length_eq_zero.mp h
    subst this
    simp [lev_nil_right]
  · rw [if_neg h, ← rowFor_nil,
        show (0 : Nat) = ([] : List Char).length from rfl, levLoop_rowFor]
    rw [show rowFor (s1.reverse ++ []) s2
          = lev (s1.reverse ++ []) [] :: rowAux (s1.reverse ++ []) [] s2 from rfl]
    rw [rowAux_getLastD]
    simp

/-- `_levenshtein` computes the classic edit distance. -/
theorem _levenshtein_eq_lev (s1 s2 : List Char) :
    _levenshtein s1 s2 = lev s1 s2 := by
  rw [_levenshtein]
  by_cases h : s1.length < s2.length
  · rw [if_pos h, levCore_eq, lev_reverse, lev_comm]
  · rw [if_neg h, levCore_eq, lev_reverse]

/-! ### Fuzzy selection -/

theorem maxDistFor_le_two (t : String) : maxDistFor t ≤ 2 := by
  rw [maxDistFor]; split <;> omega

/-- The fuzzy loop's fold agrees with merging the accumulator with the
spec's selection rule. -/
theorem foldl_fuzzyStep (c : String) :
    ∀ (l : List (String × ReflexEntry)) (bm : Option String) (bd : Nat),
      l.foldl (fuzzyStep c) (bm, bd) = mergeBest (bm, bd) (selectBest c l) := by
  intro l
  induction l with
  | nil => intro bm bd; rfl
  | cons kv rest ih =>
      intro bm bd
      rw [List.foldl_cons]
      by_cases hlen : lenDiff kv.1.length c.length > 3
      · have hq : ¬ qual c kv.1 := fun hcon => absurd hcon.1 (by omega)
        rw [show fuzzyStep c (bm, bd) kv = (bm, bd) by rw [fuzzyStep, if_pos hlen]]
        rw [ih bm bd, show selectBest c (kv :: rest) = selectBest c rest by
          rw [selectBest, if_neg hq]]
      · by_cases hdist : levS c kv.1 ≤ maxDistFor kv.1
        · have hq : qual c kv.1 := ⟨by omega, hdist⟩
          by_cases hbd : levS c kv.1 < bd
          · rw [show fuzzyStep c (bm, bd) kv = (some kv.1, levS c kv.1) by
              rw [fuzzyStep, if_neg hlen, if_pos ⟨hdist, hbd⟩]]
            rw [ih, show selectBest c (kv :: rest)
                = (match selectBest c rest with
                   | none => some (kv.1, levS c kv.1)
                   | some (t, d) =>
                       if d < levS c kv.1 then some (t, d)
                       else some (kv.1, levS c kv.1)) by rw [selectBest, if_pos hq]]
            cases hsel : selectBest c rest with
            | none => simp [mergeBest, hbd]
            | some td =>
                obtain ⟨t, d⟩ := td
                by_cases hd : d < levS c kv.1
                · have hdbd : d < bd := lt_trans hd hbd
                  simp [mergeBest, hd, hdbd]
                · simp [mergeBest, hd, hbd]
          · rw [show fuzzyStep c (bm, bd) kv = (bm, bd) by
              rw [fuzzyStep, if_neg hlen, if_neg (fun hcon => hbd hcon.2)]]
            rw [ih, show selectBest c (kv :: rest)
                = (match selectBest c rest with
                   | none => some (kv.1, levS c kv.1)
                   | some (t, d) =>
                       if d < levS c kv.1 then some (t, d)
                       else some (kv.1, levS c kv.1)) by rw [selectBest, if_pos hq]]
            cases hsel : selectBest c rest with
            | none => simp [mergeBest, hbd]
            | some td =>
                obtain ⟨t, d⟩ := td
                by_cases hd : d < levS c kv.1
                · simp [mergeBest, hd]
                · have hnd : ¬ d < bd := by omega
                  simp [mergeBest, hd, hbd, hnd]
        · have hq : ¬ qual c kv.1 := fun hcon => hdist hcon.2
          rw [show fuzzyStep c (bm, bd) kv = (bm, bd) by
            rw [fuzzyStep, if_neg hlen, if_neg (fun hcon => hdist hcon.1)]]
          rw [ih, show selectBest c (kv :: rest) = selectBest c rest by
            rw [selectBest, if_neg hq]]

/-- Unfolding: a non-qualifying head is skipped. -/
theorem selectBest_cons_notq (c k : String) (v : ReflexEntry)
    (rest : List (String × ReflexEntry)) (hq : ¬ qual c k) :
    selectBest c ((k, v) :: rest) = selectBest c rest := by
  simp [selectBest, hq]

/-- Unfolding: a qualifying head with no selection from the rest is
chosen. -/
theorem selectBest_cons_none (c k : String) (v : ReflexEntry)
    (rest : List (String × ReflexEntry)) (hq : qual c k)
    (hsel : selectBest c rest = none) :
    selectBest c ((k, v) :: rest) = some (k, levS c k) := by
  simp [selectBest, hq, hsel]

/-- Unfolding: a strictly better later selection beats a qualifying
head. -/
theorem selectBest_cons_lt (c k : String) (v : ReflexEntry)
    (rest : List (String × ReflexEntry)) (t : String) (d : Nat)
    (hq : qual c k) (hsel : selectBest c rest = some (t, d))
    (hlt : d < levS c k) :
    selectBest c ((k, v) :: rest) = some (t, d) := by
  simp [selectBest, hq, hsel, hlt]

/-- Unfolding: a qualifying head wins against a later selection that is
not strictly better (ties go to the earlier entry). -/
theorem selectBest_cons_ge (c k : String) (v : ReflexEntry)
    (rest : List (String × ReflexEntry)) (t : String) (d : Nat)
    (hq : qual c k) (hsel : selectBest c rest = some (t, d))
    (hge : ¬ d < levS c k) :
    selectBest c ((k, v) :: rest) = some (k, levS c k) := by
  simp [selectBest, hq, hsel, hge]

/-- The spec's selection returns nothing exactly when no candidate
qualifies. -/
theorem selectBest_none_iff (c : String) :
    ∀ l : List (String × ReflexEntry),
      selectBest c l = none ↔ ∀ kv ∈ l, ¬ qual c kv.1 := by
  intro l
  induction l with
  | nil => simp [selectBest]
  | cons kv rest ih =>
      obtain ⟨k, v⟩ := kv
      by_cases hq : qual c k
      · constructor
        · intro h
          exfalso
          cases hsel : selectBest c rest with
          | none =>
              rw [selectBest_cons_none c k v rest hq hsel] at h
              simp at h
          | some td =>
              obtain ⟨t, d⟩ := td
              by_cases hlt : d < levS c k
              · rw [selectBest_cons_lt c k v rest t d hq hsel hlt] at h
                simp at h
              · rw [selectBest_cons_ge c k v rest t d hq hsel hlt] at h
                simp at h
        · intro h
          exact absurd hq (h (k, v) (List.mem_cons_self _ _))
      · rw [selectBest_cons_notq c k v rest hq, ih]
        constructor
        · intro h kv' hmem
          rcases List.mem_cons.mp hmem with heq | hmem'
          · subst heq; exact hq
          · exact h kv' hmem'
        · intro h kv' hmem; exact h kv' (List.mem_cons_of_mem _ hmem)

/-- The spec's selection returns a qualifying trigger from the table,
together with its distance. -/
theorem selectBest_some (c : String) :
    ∀ (l : List (String × ReflexEntry)) (t : String) (d : Nat),
      selectBest c l = some (t, d) →
        (∃ e, (t, e) ∈ l) ∧ qual c t ∧ d = levS c t := by
  intro l
  induction l with
  | nil => intro t d h; simp [selectBest] at h
  | cons kv rest ih =>
      obtain ⟨k, v⟩ := kv
      intro t d h
      by_cases hq : qual c k
      · cases hsel : selectBest c rest with
        | none =>
            rw [selectBest_cons_none c k v rest hq hsel] at h
            simp only [Option.some.injEq, Prod.mk.injEq] at h
            obtain ⟨rfl, rfl⟩ := h
            exact ⟨⟨v, List.mem_cons_self _ _⟩, hq, rfl⟩
        | some td =>
            obtain ⟨t', d'⟩ := td
            by_cases hlt : d' < levS c k
            · rw [selectBest_cons_lt c k v rest t' d' hq hsel hlt] at h
              simp only [Option.some.injEq, Prod.mk.injEq] at h
              obtain ⟨rfl, rfl⟩ := h
              obtain ⟨⟨e, he⟩, hq', hd'⟩ := ih _ _ hsel
              exact ⟨⟨e, List.mem_cons_of_mem _ he⟩, hq', hd'⟩
            · rw [selectBest_cons_ge c k v rest t' d' hq hsel hlt] at h
              simp only [Option.some.injEq, Prod.mk.injEq] at h
              obtain ⟨rfl, rfl⟩ := h
              exact ⟨⟨v, List.mem_cons_self _ _⟩, hq, rfl⟩
      · rw [selectBest_cons_notq c k v rest hq] at h
        obtain ⟨⟨e, he⟩, hq', hd'⟩ := ih t d h
        exact ⟨⟨e, List.mem_cons_of_mem _ he⟩, hq', hd'⟩

/-- The spec's selection is minimal: its distance is at most the
distance of every qualifying candidate. -/
theorem selectBest_min (c : String) :
    ∀ (l : List (String × ReflexEntry)) (t : String) (d : Nat),
      selectBest c l = some (t, d) →
        ∀ kv ∈ l, qual c kv.1 → d ≤ levS c kv.1 := by
  intro l
  induction l with
  | nil => intro t d h; simp [selectBest] at h
  | cons kv rest ih =>
      obtain ⟨k, v⟩ := kv
      intro t d h kv' hmem hq'
      by_cases hq : qual c k
      · cases hsel : selectBest c rest with
        | none =>
            rw [selectBest_cons_none c k v rest hq hsel] at h
            simp only [Option.some.injEq, Prod.mk.injEq] at h
            obtain ⟨rfl, rfl⟩ := h
            rcases List.mem_cons.mp hmem with heq | hmem'
            · subst heq; rfl
            · exact absurd hq' ((selectBest_none_iff c rest).mp hsel kv' hmem')
        | some td =>
            obtain ⟨t', d'⟩ := td
            by_cases hlt : d' < levS c k
            · rw [selectBest_cons_lt c k v rest t' d' hq hsel hlt] at h
              simp only [Option.some.injEq, Prod.mk.injEq] at h
              obtain ⟨rfl, rfl⟩ := h
              rcases List.mem_cons.mp hmem with heq | hmem'
              · subst heq; exact le_of_lt hlt
              · exact ih _ _ hsel kv' hmem' hq'
            · rw [selectBest_cons_ge c k v rest t' d' hq hsel hlt] at h
              simp only [Option.some.injEq, Prod.mk.injEq] at h
              obtain ⟨rfl, rfl⟩ := h
              rcases List.mem_cons.mp hmem with heq | hmem'
              · subst heq; rfl
              · have := ih t' d' hsel kv' hmem' hq'
                omega
      · rw [selectBest_cons_notq c k v rest hq] at h
        rcases List.mem_cons.mp hmem with heq | hmem'
        · subst heq; exact absurd hq' hq
        · exact ih t d h kv' hmem' hq'

/-- Tie-break: when a qualifying candidate `kv` achieves the selected
distance, the selected trigger occurs no later than `kv` in the table
(first-encountered order wins). -/
theorem selectBest_first (c : String) :
    ∀ (l1 : List (String × ReflexEntry)) (kv : String × ReflexEntry)
      (l2 : List (String × ReflexEntry)) (t : String) (d : Nat),
      selectBest c (l1 ++ kv :: l2) = some (t, d) →
      qual c kv.1 → levS c kv.1 = d →
      t ∈ (l1 ++ [kv]).map Prod.fst := by
  intro l1
  induction l1 with
  | nil =>
      intro kv l2 t d h hq hd
      obtain ⟨k, e⟩ := kv
      have hq' : qual c k := hq
      have hd' : levS c k = d := hd
      simp only [List.nil_append] at h ⊢
      cases hsel : selectBest c l2 with
      | none =>
          rw [selectBest_cons_none c k e l2 hq' hsel] at h
          simp only [Option.some.injEq, Prod.mk.injEq] at h
          simp [← h.1]
      | some td =>
          obtain ⟨t', d'⟩ := td
          by_cases hlt : d' < levS c k
          · rw [selectBest_cons_lt c k e l2 t' d' hq' hsel hlt] at h
            simp only [Option.some.injEq, Prod.mk.injEq] at h
            exact absurd hlt (by omega)
          · rw [selectBest_cons_ge c k e l2 t' d' hq' hsel hlt] at h
            simp only [Option.some.injEq, Prod.mk.injEq] at h
            simp [← h.1]
  | cons kv0 l1' ih =>
      intro kv l2 t d h hq hd
      obtain ⟨k0, e0⟩ := kv0
      simp only [List.cons_append] at h ⊢
      by_cases hq0 : qual c k0
      · cases hsel : selectBest c (l1' ++ kv :: l2) with
        | none =>
            exfalso
            exact (selectBest_none_iff c _).mp hsel kv
              (List.mem_append_right l1' (List.mem_cons_self kv l2)) hq
        | some td =>
            obtain ⟨t', d'⟩ := td
            by_cases hlt : d' < levS c k0
            · rw [selectBest_cons_lt c k0 e0 _ t' d' hq0 hsel hlt] at h
              simp only [Option.some.injEq, Prod.mk.injEq] at h
              obtain ⟨rfl, rfl⟩ := h
              exact List.mem_cons_of_mem _ (ih kv l2 _ _ hsel hq hd)
            · rw [selectBest_cons_ge c k0 e0 _ t' d' hq0 hsel hlt] at h
              simp only [Option.some.injEq, Prod.mk.injEq] at h
              simp [← h.1]
      · rw [selectBest_cons_notq c k0 e0 _ hq0] at h
        exact List.mem_cons_of_mem _ (ih kv l2 t d h hq hd)

/-- The code's fuzzy loop computes exactly the spec's selection. -/
theorem fuzzyBest_eq (c : String) :
    fuzzyBest c = (selectBest c REFLEXES).map Prod.fst := by
  rw [fuzzyBest, foldl_fuzzyStep]
  cases hsel : selectBest c REFLEXES with
  | none => rfl
  | some td =>
      obtain ⟨t, d⟩ := td
      have h := selectBest_some c REFLEXES t d hsel
      have h1 : levS c t ≤ maxDistFor t := h.2.1.2
      have h2 : maxDistFor t ≤ 2 := maxDistFor_le_two t
      have h3 : d = levS c t := h.2.2
      have hd : d < 999 := by omega
      simp [mergeBest, hd]

/-- In an association list with distinct keys, `lookup` of a present
key returns its entry. -/
theorem lookup_eq_of_mem :
    ∀ (l : List (String × ReflexEntry)), (l.map Prod.fst).Nodup →
      ∀ (t : String) (e : ReflexEntry), (t, e) ∈ l → l.lookup t = some e := by
  intro l
  induction l with
  | nil => intro _ t e h; simp at h
  | cons kv rest ih =>
      obtain ⟨k, v⟩ := kv
      intro hnd t e hmem
      rw [List.map_cons] at hnd
      have hk : k ∉ rest.map Prod.fst := (List.nodup_cons.mp hnd).1
      have hnd' : (rest.map Prod.fst).Nodup := (List.nodup_cons.mp hnd).2
      rcases List.mem_cons.mp hmem with heq | hmem'
      · obtain ⟨rfl, rfl⟩ := Prod.mk.injEq .. ▸ heq
        simp [List.lookup]
      · have hne : t ≠ k := by
          intro hcontra; subst hcontra
          exact hk (List.mem_map.mpr ⟨(t, e), hmem', rfl⟩)
        rw [List.lookup, beq_eq_false_iff_ne.mpr hne]
        exact ih hnd' t e hmem'

theorem reflex_keys_nodup : (REFLEXES.map Prod.fst).Nodup := by decide

/-! ### Claims -/

/-- C9: the edit-distance utility `_levenshtein` computes, for every
pair of strings, the minimum number of single-character insertions,
deletions and substitutions transforming one into the other — the
classic edit distance without transpositions, as captured by the
reference definition `lev` — and for an empty-string input it returns
the length of the other string.  Being a total Lean function, it is
deterministic, pure and raises no errors. -/
theorem claim_C9_edit_distance :
    (∀ s1 s2 : String, levS s1 s2 = lev s1.data s2.data) ∧
    (∀ s : String, levS "" s = s.length ∧ levS s "" = s.length) := by
  refine ⟨fun s1 s2 => _levenshtein_eq_lev s1.data s2.data, fun s => ⟨?_, ?_⟩⟩
  · rw [levS, _levenshtein_eq_lev]
    show lev [] s.data = s.length
    rw [lev_nil_left]
    rfl
  · rw [levS, _levenshtein_eq_lev]
    show lev s.data [] = s.length
    rw [lev_nil_right]
    rfl

/-- C8: for every trigger key `T` in the reflex table, matching an
utterance whose normalized form equals `T` returns `T`'s entry
unmodified; in particular `"sit"` (English) and `"sitz"` (German) both
resolve via exact lookup to the same entry with canonical action `sit`
and a happy mood. -/
theorem claim_C8_exact_match :
    (∀ (t : String) (e : ReflexEntry) (u : String),
        (t, e) ∈ REFLEXES → normalize u = t → match_reflex u = some e) ∧
    match_reflex "sit" = some (["sit"], "Mach ich!", "happy") ∧
    match_reflex "sitz" = some (["sit"], "Mach ich!", "happy") ∧
    REFLEXES.lookup (normalize "sit") = some (["sit"], "Mach ich!", "happy") ∧
    REFLEXES.lookup (normalize "sitz") = some (["sit"], "Mach ich!", "happy") := by
  refine ⟨?_, by decide, by decide, by decide, by decide⟩
  intro t e u hmem hnorm
  rw [match_reflex, hnorm]
  unfold match_reflex_cleaned
  rw [lookup_eq_of_mem REFLEXES reflex_keys_nodup t e hmem]

theorem claim_C8_exact_match_witness :
    ("sitz", ((["sit"], "Mach ich!", "happy") : ReflexEntry)) ∈ REFLEXES ∧
    normalize "sitz" = "sitz" ∧
    match_reflex "sitz" = some (["sit"], "Mach ich!", "happy") :=
  ⟨by decide, by decide,
    claim_C8_exact_match.1 "sitz" (["sit"], "Mach ich!", "happy") "sitz"
      (by decide) (by decide)⟩

/-- C3: fuzzy reflex matching follows the specified algorithm.  (1) For
a normalized input of length < 3, only the exact lookup is attempted —
the matcher returns exactly the exact-lookup result, so fuzzy matching
never produces one.  (2) If no trigger qualifies (length difference ≤ 3
and edit distance within the allowed bound, 1 for trigger length ≤ 5
else 2) and the exact lookup misses, the matcher reports no match
(returning `none`, never raising).  (3) When the exact lookup misses,
the length is ≥ 3 and the spec's selection (`selectBest`, smallest
distance, earlier entry winning ties) chooses `(t, d)`, the matcher
returns `t`'s entry; `t` qualifies, `d` is its distance and `d` is
minimal among all qualifying candidates.  (4) The choice respects
first-encountered order: the chosen trigger occurs no later than any
qualifying candidate achieving the same distance. -/
theorem claim_C3_fuzzy_match :
    (∀ c : String, c.length < 3 → match_reflex_cleaned c = REFLEXES.lookup c) ∧
    (∀ c : String, REFLEXES.lookup c = none → (∀ kv ∈ REFLEXES, ¬ qual c kv.1) →
        match_reflex_cleaned c = none) ∧
    (∀ (c t : String) (d : Nat), 3 ≤ c.length → REFLEXES.lookup c = none →
        selectBest c REFLEXES = some (t, d) →
        match_reflex_cleaned c = REFLEXES.lookup t ∧
        qual c t ∧ d = levS c t ∧
        (∀ kv ∈ REFLEXES, qual c kv.1 → d ≤ levS c kv.1)) ∧
    (∀ (c t : String) (d : Nat)
        (l1 : List (String × ReflexEntry)) (kv : String × ReflexEntry)
        (l2 : List (String × ReflexEntry)),
        selectBest c REFLEXES = some (t, d) →
        REFLEXES = l1 ++ kv :: l2 → qual c kv.1 → levS c kv.1 = d →
        t ∈ (l1 ++ [kv]).map Prod.fst) := by
  refine ⟨?_, ?_, ?_, ?_⟩
  · intro c hlen
    unfold match_reflex_cleaned
    cases hl : REFLEXES.lookup c with
    | some e => rfl
    | none => rw [if_neg (by omega)]
  · intro c hl hnoq
    unfold match_reflex_cleaned
    rw [hl]
    by_cases hlen : 3 ≤ c.length
    · rw [if_pos hlen, fuzzyBest_eq, (selectBest_none_iff c REFLEXES).mpr hnoq]
      rfl
    · rw [if_neg hlen]
  · intro c t d hlen hl hsel
    have h := selectBest_some c REFLEXES t d hsel
    refine ⟨?_, h.2.1, h.2.2, selectBest_min c REFLEXES t d hsel⟩
    unfold match_reflex_cleaned
    rw [hl, if_pos hlen, fuzzyBest_eq, hsel]
    rfl
  · intro c t d l1 kv l2 hsel hrefl hq hd
    exact selectBest_first c l1 kv l2 t d (hrefl ▸ hsel) hq hd

theorem claim_C3_fuzzy_match_witness :
    (("hi" : String).length < 3 ∧
      match_reflex_cleaned "hi" = REFLEXES.lookup "hi") ∧
    (3 ≤ ("sitzz" : String).length ∧ REFLEXES.lookup "sitzz" = none ∧
      selectBest "sitzz" REFLEXES = some ("sitz", 1) ∧
      match_reflex_cleaned "sitzz" = REFLEXES.lookup "sitz") :=
  ⟨⟨by decide, claim_C3_fuzzy_match.1 "hi" (by decide)⟩,
   ⟨by decide, by decide, by decide,
     (claim_C3_fuzzy_match.2.2.1 "sitzz" "sitz" 1 (by decide) (by decide)
        (by decide)).1⟩⟩

/-! ### Conversation store -/

theorem evict_eq_self (maxEntries : Nat) :
    ∀ l : List HistEntry, l.length ≤ maxEntries → evict maxEntries l = l := by
  intro l h
  cases l with
  | nil => rfl
  | cons x t =>
      cases t with
      | nil => rfl
      | cons y rest => rw [evict, if_neg (by omega)]

theorem toEntries_append (ps qs : List (String × String)) :
    toEntries (ps ++ qs) = toEntries ps ++ toEntries qs := by
  induction ps with
  | nil => rfl
  | cons p ps ih => simp [toEntries, ih]

theorem toEntries_length (ps : List (String × String)) :
    (toEntries ps).length = 2 * ps.length := by
  induction ps with
  | nil => rfl
  | cons p ps ih => simp [toEntries, ih]; omega

/-- Appending one exchange to a store holding the most recent
`min (qs.length, N)` exchanges yields the store holding the most recent
`min (qs.length + 1, N)` exchanges. -/
theorem add_exchange_drop (N : Nat) (qs : List (String × String)) (u a : String) :
    add_exchange (2 * N) (toEntries (qs.drop (qs.length - N))) u a
      = toEntries ((qs ++ [(u, a)]).drop (qs.length + 1 - N)) := by
  rw [add_exchange]
  by_cases hlt : qs.length < N
  · have h1 : qs.length - N = 0 := by omega
    have h2 : qs.length + 1 - N = 0 := by omega
    rw [h1, h2]
    simp only [List.drop_zero]
    rw [show toEntries qs ++ [HistEntry.mk "user" u, HistEntry.mk "assistant" a]
          = toEntries (qs ++ [(u, a)]) by rw [toEntries_append]; rfl]
    apply evict_eq_self
    rw [toEntries_length]
    simp only [List.length_append, List.length_cons, List.length_nil]
    omega
  · have hge : N ≤ qs.length := by omega
    cases N with
    | zero =>
        simp only [Nat.sub_zero, List.drop_length]
        rw [show (qs ++ [(u, a)]).drop (qs.length + 1)
              = [] by
            apply List.drop_eq_nil_of_le
            simp]
        rfl
    | succ n =>
        have hlen : (qs.drop (qs.length - (n + 1))).length = n + 1 := by
          rw [List.length_drop]; omega
        cases hL : qs.drop (qs.length - (n + 1)) with
        | nil => rw [hL] at hlen; simp at hlen
        | cons l0 L' =>
            have hL' : L' = qs.drop (qs.length - n) := by
              have h2 := congrArg (List.drop 1) hL
              rw [List.drop_drop] at h2
              rw [show qs.length - (n + 1) + 1 = qs.length - n by omega] at h2
              simpa using h2.symm
            have hlenL' : L'.length = n := by
              rw [hL'] ; rw [List.length_drop]; omega
            rw [show toEntries (l0 :: L')
                    ++ [HistEntry.mk "user" u, HistEntry.mk "assistant" a]
                  = HistEntry.mk "user" l0.1 :: HistEntry.mk "assistant" l0.2 ::
                      toEntries (L' ++ [(u, a)]) by
              simp [toEntries, toEntries_append]]
            rw [evict, if_pos (by
              simp only [List.length_cons, toEntries_length, List.length_append,
                List.length_nil, hlenL']
              omega)]
            rw [evict_eq_self _ _ (by
              rw [toEntries_length]
              simp only [List.length_append, List.length_cons, List.length_nil,
                hlenL']
              omega)]
            congr 1
            rw [show qs.length + 1 - (n + 1) = qs.length - n by omega]
            rw [List.drop_append_of_le_length (by omega), ← hL']

/-- Replaying any sequence of exchanges leaves exactly the most recent
`min (pairs.length, N)` exchanges, flattened in chronological order. -/
theorem appendAll_eq (N : Nat) (pairs : List (String × String)) :
    appendAll (2 * N) pairs = toEntries (pairs.drop (pairs.length - N)) := by
  induction pairs using List.reverseRecOn with
  | nil => simp [appendAll, List.drop_nil, toEntries]
  | append_singleton ps p ih =>
      obtain ⟨u, a⟩ := p
      rw [appendAll, List.foldl_append]
      show add_exchange (2 * N) (appendAll (2 * N) ps) u a
          = toEntries ((ps ++ [(u, a)]).drop ((ps ++ [(u, a)]).length - N))
      rw [ih, add_exchange_drop]
      congr 1
      simp

/-- C2: for every bound `N` and every sequence of appended exchanges,
the store never holds more than `2N` entries; the store always equals
the flattened most recent `min (count, N)` exchanges in arrival order
(so eviction removes the oldest user+assistant pair first); and after
appending more than `N` exchanges exactly `2N` entries remain. -/
theorem claim_C2_conversation_store :
    (∀ (N : Nat) (pairs : List (String × String)),
        (appendAll (2 * N) pairs).length ≤ 2 * N) ∧
    (∀ (N : Nat) (pairs : List (String × String)),
        appendAll (2 * N) pairs = toEntries (pairs.drop (pairs.length - N))) ∧
    (∀ (N : Nat) (pairs : List (String × String)), N < pairs.length →
        (appendAll (2 * N) pairs).length = 2 * N) := by
  refine ⟨?_, appendAll_eq, ?_⟩
  · intro N pairs
    rw [appendAll_eq, toEntries_length, List.length_drop]
    omega
  · intro N pairs h
    rw [appendAll_eq, toEntries_length, List.length_drop]
    omega

theorem claim_C2_conversation_store_witness :
    1 < 2 ∧ (appendAll 2 [("a", "b"), ("c", "d")]).length = 2 :=
  ⟨by decide, by
    have h := claim_C2_conversation_store.2.2 1 [("a", "b"), ("c", "d")]
      (by decide)
    simpa using h⟩

/-! ### Circuit breaker -/

theorem record_failure_fields (b : Breaker) (now : Nat) :
    (record_failure b now).failures = b.failures + 1 ∧
    (record_failure b now).threshold = b.threshold ∧
    (record_failure b now).lastFailureTime = now ∧
    (record_failure b now).retryInterval = b.retryInterval ∧
    (record_failure b now).activeUrlTS = b.activeUrlTS := by
  rw [record_failure]
  split <;> exact ⟨rfl, rfl, rfl, rfl, rfl⟩

theorem record_failure_state_opened (b : Breaker) (now : Nat)
    (h : b.threshold ≤ b.failures + 1) :
    (record_failure b now).state = .opened := by
  rw [record_failure, if_pos (show b.failures + 1 ≥ b.threshold from h)]

theorem record_failures_spec (now : Nat) :
    ∀ (n : Nat) (b : Breaker),
      (record_failures b now n).failures = b.failures + n ∧
      (record_failures b now n).threshold = b.threshold ∧
      (1 ≤ n → b.threshold ≤ b.failures + n →
        (record_failures b now n).state = .opened) := by
  intro n
  induction n with
  | zero =>
      intro b
      exact ⟨rfl, rfl, fun h _ => absurd h (by omega)⟩
  | succ n ih =>
      intro b
      rw [record_failures]
      obtain ⟨hf, hth, hst⟩ := ih (record_failure b now)
      have hrf := record_failure_fields b now
      refine ⟨by rw [hf, hrf.1]; omega, by rw [hth, hrf.2.1], ?_⟩
      intro _ hge
      by_cases hn : 1 ≤ n
      · exact hst hn (by rw [hrf.1, hrf.2.1]; omega)
      · have hn0 : n = 0 := by omega
        subst hn0
        rw [record_failures]
        exact record_failure_state_opened b now (by omega)

theorem can_attempt_closed (b : Breaker) (now : Nat) (h : b.state = .closed) :
    can_attempt b now = (true, b) := by
  obtain ⟨st, f, th, ri, lt, au⟩ := b
  simp only at h
  subst h
  rfl

theorem can_attempt_halfOpen (b : Breaker) (now : Nat)
    (h : b.state = .halfOpen) : can_attempt b now = (true, b) := by
  obtain ⟨st, f, th, ri, lt, au⟩ := b
  simp only at h
  subst h
  rfl

theorem can_attempt_opened_early (b : Breaker) (now : Nat)
    (h : b.state = .opened)
    (h2 : now - b.lastFailureTime < b.retryInterval) :
    can_attempt b now = (false, b) := by
  obtain ⟨st, f, th, ri, lt, au⟩ := b
  simp only at h h2
  subst h
  have hc : ¬ ri ≤ now - lt := by omega
  simp [can_attempt, hc]

theorem can_attempt_opened_elapsed (b : Breaker) (now : Nat)
    (h : b.state = .opened)
    (h2 : b.retryInterval ≤ now - b.lastFailureTime) :
    can_attempt b now = (true, { b with state := .halfOpen }) := by
  obtain ⟨st, f, th, ri, lt, au⟩ := b
  simp only at h h2
  subst h
  simp [can_attempt, h2]

theorem can_attempt_fields (b : Breaker) (now : Nat) :
    (can_attempt b now).2.failures = b.failures ∧
    (can_attempt b now).2.activeUrlTS = b.activeUrlTS ∧
    (can_attempt b now).2.lastFailureTime = b.lastFailureTime ∧
    (can_attempt b now).2.threshold = b.threshold := by
  obtain ⟨st, f, th, ri, lt, au⟩ := b
  cases st with
  | closed => exact ⟨rfl, rfl, rfl, rfl⟩
  | halfOpen => exact ⟨rfl, rfl, rfl, rfl⟩
  | opened =>
      by_cases hc : ri ≤ now - lt
      · simp [can_attempt, hc]
      · simp [can_attempt, hc]

theorem bridge_call_rejected (b : Breaker) (now : Nat) (netOk : Bool)
    (h : (can_attempt b now).1 = false) :
    bridge_call b now netOk = (.circuitOpen, (can_attempt b now).2, false) := by
  simp [bridge_call, h]

theorem bridge_call_true_eq (b : Breaker) (now : Nat)
    (h : (can_attempt b now).1 = true) :
    bridge_call b now true = (.ok, record_success (can_attempt b now).2, true) := by
  simp [bridge_call, h]

theorem bridge_call_false_breaker (b : Breaker) (now : Nat)
    (h : (can_attempt b now).1 = true) :
    (bridge_call b now false).2.1 =
      if (record_failure (can_attempt b now).2 now).failures = 2
      then try_failover (record_failure (can_attempt b now).2 now)
      else record_failure (can_attempt b now).2 now := by
  simp [bridge_call, h]

theorem failPath_state (b2 : Breaker) :
    (if b2.failures = 2 then try_failover b2 else b2).state = b2.state := by
  split <;> rfl

theorem failPath_last (b2 : Breaker) :
    (if b2.failures = 2 then try_failover b2 else b2).lastFailureTime
      = b2.lastFailureTime := by
  split <;> rfl

theorem can_attempt_inv (b : Breaker) (now : Nat) (hinv : BreakerInv b) :
    BreakerInv (can_attempt b now).2 := by
  obtain ⟨st, f, th, ri, lt, au⟩ := b
  cases st with
  | closed => exact hinv
  | halfOpen => exact hinv
  | opened =>
      by_cases hc : ri ≤ now - lt
      · simp only [can_attempt, if_pos hc]
        intro _
        exact hinv (Or.inl rfl)
      · simp only [can_attempt, if_neg hc]
        exact hinv

theorem record_failure_inv (b : Breaker) (now : Nat) (hinv : BreakerInv b) :
    BreakerInv (record_failure b now) := by
  by_cases h : b.failures + 1 ≥ b.threshold
  · rw [record_failure, if_pos h]
    intro _
    exact h
  · rw [record_failure, if_neg h]
    intro hst
    have := hinv hst
    omega

theorem try_failover_inv (b : Breaker) (hinv : BreakerInv b) :
    BreakerInv (try_failover b) :=
  fun hst => hinv hst

theorem record_success_inv (b : Breaker) : BreakerInv (record_success b) := by
  intro hst
  rcases hst with h | h <;> simp [record_success] at h

/-- C1: the circuit breaker follows the specified state machine.
(1) Each recorded failure increments the failure counter and stamps the
failure time; (2) starting from CLOSED with a zero counter, after
`threshold` consecutive failures the state is OPEN.  (3) While OPEN, a
get/post attempted before `retry_interval` has elapsed since the last
failure returns the synthetic circuit-open error, leaves the breaker
unchanged and makes no network attempt.  (4) Once the interval has
elapsed, `can_attempt` moves the breaker to HALF_OPEN and the one call
allowed through alone determines the next state: success yields CLOSED
with a zero counter, failure yields OPEN with the failure timestamp
refreshed to the call time (under the reachability invariant).  (5) The
same dichotomy holds in HALF_OPEN.  (6) Any successful call, from any
state, resets the failure counter to zero and sets CLOSED.  (7) The
reachability invariant holds for the initial breaker and (8) is
preserved by every call. -/
theorem claim_C1_circuit_breaker :
    (∀ (b : Breaker) (now : Nat),
        (record_failure b now).failures = b.failures + 1 ∧
        (record_failure b now).lastFailureTime = now) ∧
    (∀ (b : Breaker) (now n : Nat),
        b.state = .closed → b.failures = 0 → n = b.threshold → 1 ≤ n →
        (record_failures b now n).state = .opened) ∧
    (∀ (b : Breaker) (now : Nat) (netOk : Bool),
        b.state = .opened → now - b.lastFailureTime < b.retryInterval →
        bridge_call b now netOk = (.circuitOpen, b, false)) ∧
    (∀ (b : Breaker) (now : Nat),
        b.state = .opened → b.retryInterval ≤ now - b.lastFailureTime →
        can_attempt b now = (true, { b with state := .halfOpen }) ∧
        bridge_call b now true
          = (.ok, { b with state := .closed, failures := 0 }, true) ∧
        (BreakerInv b →
          (bridge_call b now false).2.1.state = .opened ∧
          (bridge_call b now false).2.1.lastFailureTime = now)) ∧
    (∀ (b : Breaker) (now : Nat),
        b.state = .halfOpen →
        bridge_call b now true
          = (.ok, { b with state := .closed, failures := 0 }, true) ∧
        (BreakerInv b →
          (bridge_call b now false).2.1.state = .opened ∧
          (bridge_call b now false).2.1.lastFailureTime = now)) ∧
    (∀ (b : Breaker) (now : Nat),
        (bridge_call b now true).1 = .ok →
        (bridge_call b now true).2.1.state = .closed ∧
        (bridge_call b now true).2.1.failures = 0) ∧
    (BreakerInv Breaker.init ∧
      ∀ (b : Breaker) (now : Nat) (netOk : Bool),
        BreakerInv b → BreakerInv (bridge_call b now netOk).2.1) := by
  refine ⟨?_, ?_, ?_, ?_, ?_, ?_, ?_, ?_⟩
  · intro b now
    exact ⟨(record_failure_fields b now).1, (record_failure_fields b now).2.2.1⟩
  · intro b now n _ hf0 hn h1
    exact (record_failures_spec now n b).2.2 h1 (by omega)
  · intro b now netOk hst hlt
    rw [bridge_call_rejected b now netOk
          (by rw [can_attempt_opened_early b now hst hlt]),
        can_attempt_opened_early b now hst hlt]
  · intro b now hst helap
    have hca := can_attempt_opened_elapsed b now hst helap
    have hca1 : (can_attempt b now).1 = true := by rw [hca]
    refine ⟨hca, ?_, ?_⟩
    · rw [bridge_call_true_eq b now hca1, hca]
      exact rfl
    · intro hinv
      have hth : b.threshold ≤ b.failures := hinv (Or.inl hst)
      constructor
      · rw [bridge_call_false_breaker b now hca1, failPath_state]
        apply record_failure_state_opened
        rw [hca]
        show b.threshold ≤ b.failures + 1
        omega
      · rw [bridge_call_false_breaker b now hca1, failPath_last]
        exact (record_failure_fields _ now).2.2.1
  · intro b now hst
    have hca := can_attempt_halfOpen b now hst
    have hca1 : (can_attempt b now).1 = true := by rw [hca]
    refine ⟨?_, ?_⟩
    · rw [bridge_call_true_eq b now hca1, hca]
      rw [show record_success b = { b with state := .closed, failures := 0 }
            from rfl]
    · intro hinv
      have hth : b.threshold ≤ b.failures := hinv (Or.inr hst)
      constructor
      · rw [bridge_call_false_breaker b now hca1, failPath_state]
        apply record_failure_state_opened
        rw [hca]
        show b.threshold ≤ b.failures + 1
        omega
      · rw [bridge_call_false_breaker b now hca1, failPath_last]
        exact (record_failure_fields _ now).2.2.1
  · intro b now h
    cases hcan : (can_attempt b now).1 with
    | false =>
        rw [bridge_call_rejected b now true hcan] at h
        simp at h
    | true =>
        rw [bridge_call_true_eq b now hcan]
        exact ⟨rfl, rfl⟩
  · intro hst
    rcases hst with h | h <;> exact absurd h (by decide)
  · intro b now netOk hinv
    cases netOk with
    | true =>
        cases hcan : (can_attempt b now).1 with
        | false =>
            rw [bridge_call_rejected b now true hcan]
            exact can_attempt_inv b now hinv
        | true =>
            rw [bridge_call_true_eq b now hcan]
            exact record_success_inv _
    | false =>
        cases hcan : (can_attempt b now).1 with
        | false =>
            rw [bridge_call_rejected b now false hcan]
            exact can_attempt_inv b now hinv
        | true =>
            rw [bridge_call_false_breaker b now hcan]
            split
            · exact try_failover_inv _
                (record_failure_inv _ now (can_attempt_inv b now hinv))
            · exact record_failure_inv _ now (can_attempt_inv b now hinv)

theorem claim_C1_circuit_breaker_witness :
    ((record_failure ⟨.closed, 0, 5, 30, 0, false⟩ 7).failures = 1 ∧
      (record_failure ⟨.closed, 0, 5, 30, 0, false⟩ 7).lastFailureTime = 7) ∧
    (record_failures ⟨.closed, 0, 5, 30, 0, false⟩ 7 5).state = .opened ∧
    bridge_call ⟨.opened, 5, 5, 30, 100, false⟩ 110 true
      = (.circuitOpen, ⟨.opened, 5, 5, 30, 100, false⟩, false) ∧
    bridge_call ⟨.opened, 5, 5, 30, 100, false⟩ 130 true
      = (.ok, ⟨.closed, 0, 5, 30, 100, false⟩, true) ∧
    (bridge_call ⟨.opened, 5, 5, 30, 100, false⟩ 130 false).2.1.state
      = .opened :=
  ⟨claim_C1_circuit_breaker.1 ⟨.closed, 0, 5, 30, 0, false⟩ 7,
   claim_C1_circuit_breaker.2.1 ⟨.closed, 0, 5, 30, 0, false⟩ 7 5 rfl rfl rfl
     (by decide),
   claim_C1_circuit_breaker.2.2.1 ⟨.opened, 5, 5, 30, 100, false⟩ 110 true rfl
     (by decide),
   (claim_C1_circuit_breaker.2.2.2.1 ⟨.opened, 5, 5, 30, 100, false⟩ 130 rfl
     (by decide)).2.1,
   ((claim_C1_circuit_breaker.2.2.2.1 ⟨.opened, 5, 5, 30, 100, false⟩ 130 rfl
     (by decide)).2.2 (fun _ => le_rfl)).1⟩

/-- C5: independently of the breaker state, a failing call recorded
when the counter stood at 1 (so the counter becomes exactly 2) swaps
the active endpoint to the alternate address and leaves the counter at
2 (the swap does not reset it); a failing call from any other counter
value, a successful call, and a rejected call all leave the endpoint
unchanged; and `try_failover` itself preserves the failure counter,
the state and the failure timestamp. -/
theorem claim_C5_endpoint_failover :
    (∀ (b : Breaker) (now : Nat),
        b.failures = 1 → (can_attempt b now).1 = true →
        (bridge_call b now false).2.1.activeUrlTS = !b.activeUrlTS ∧
        (bridge_call b now false).2.1.failures = 2) ∧
    (∀ (b : Breaker) (now : Nat),
        b.failures ≠ 1 →
        (bridge_call b now false).2.1.activeUrlTS = b.activeUrlTS) ∧
    (∀ (b : Breaker) (now : Nat),
        (bridge_call b now true).2.1.activeUrlTS = b.activeUrlTS) ∧
    (∀ b : Breaker,
        (try_failover b).failures = b.failures ∧
        (try_failover b).state = b.state ∧
        (try_failover b).lastFailureTime = b.lastFailureTime) := by
  refine ⟨?_, ?_, ?_, fun b => ⟨rfl, rfl, rfl⟩⟩
  · intro b now hf hcan
    have h2 : (record_failure (can_attempt b now).2 now).failures = 2 := by
      rw [(record_failure_fields _ now).1, (can_attempt_fields b now).1, hf]
    rw [bridge_call_false_breaker b now hcan, if_pos h2]
    constructor
    · show (!(record_failure (can_attempt b now).2 now).activeUrlTS)
          = !b.activeUrlTS
      rw [(record_failure_fields _ now).2.2.2.2, (can_attempt_fields b now).2.1]
    · exact h2
  · intro b now hf
    cases hcan : (can_attempt b now).1 with
    | false =>
        rw [bridge_call_rejected b now false hcan]
        exact (can_attempt_fields b now).2.1
    | true =>
        have hne : (record_failure (can_attempt b now).2 now).failures ≠ 2 := by
          rw [(record_failure_fields _ now).1, (can_attempt_fields b now).1]
          omega
        rw [bridge_call_false_breaker b now hcan, if_neg hne,
            (record_failure_fields _ now).2.2.2.2,
            (can_attempt_fields b now).2.1]
  · intro b now
    cases hcan : (can_attempt b now).1 with
    | false =>
        rw [bridge_call_rejected b now true hcan]
        exact (can_attempt_fields b now).2.1
    | true =>
        rw [bridge_call_true_eq b now hcan]
        show (can_attempt b now).2.activeUrlTS = b.activeUrlTS
        exact (can_attempt_fields b now).2.1

theorem claim_C5_endpoint_failover_witness :
    (⟨.closed, 1, 5, 30, 0, false⟩ : Breaker).failures = 1 ∧
    (can_attempt ⟨.closed, 1, 5, 30, 0, false⟩ 50).1 = true ∧
    (bridge_call ⟨.closed, 1, 5, 30, 0, false⟩ 50 false).2.1.activeUrlTS
      = true ∧
    (bridge_call ⟨.closed, 1, 5, 30, 0, false⟩ 50 false).2.1.failures = 2 :=
  ⟨rfl, rfl,
   (claim_C5_endpoint_failover.1 ⟨.closed, 1, 5, 30, 0, false⟩ 50 rfl rfl).1,
   (claim_C5_endpoint_failover.1 ⟨.closed, 1, 5, 30, 0, false⟩ 50 rfl rfl).2⟩

/-! ### Combo builder -/

/-- The rgb field of a built combo, by unfolding. -/
theorem build_combo_rgb (a : Option (List String)) (sp : Option String)
    (em : Option String) (rgb : Option Rgbd) :
    (build_combo a sp em rgb).rgb =
      match rgb with
      | some r => some r
      | none =>
          match em with
          | some e =>
              if e.isEmpty then EMOTION_RGB.lookup "neutral"
              else
                match EMOTION_RGB.lookup e with
                | some v => some v
                | none => EMOTION_RGB.lookup "neutral"
          | none => EMOTION_RGB.lookup "neutral" := rfl

/-- Every combo built by `send_combo` carries an rgb entry. -/
theorem build_combo_rgb_isSome (a : Option (List String)) (sp : Option String)
    (em : Option String) (rgb : Option Rgbd) :
    (build_combo a sp em rgb).rgb.isSome := by
  rw [build_combo_rgb]
  cases rgb with
  | some r => rfl
  | none =>
      cases em with
      | none => rfl
      | some e =>
          show (if e.isEmpty = true then EMOTION_RGB.lookup "neutral"
              else
                match EMOTION_RGB.lookup e with
                | some v => some v
                | none => EMOTION_RGB.lookup "neutral").isSome = true
          by_cases he : e.isEmpty
          · rw [if_pos he]
            rfl
          · simp only [Bool.not_eq_true] at he
            rw [if_neg (by simp [he])]
            cases EMOTION_RGB.lookup e with
            | some v => rfl
            | none => rfl

/-- C10: the combo payload built by `send_combo` contains an rgb entry
for every input — the explicit rgb dict when one is supplied, the
`EMOTION_RGB` table entry when the emotion is truthy and known, and the
neutral entry otherwise (unknown or falsy emotion, or none at all);
the neutral entry exists in the table; consequently the built combo is
never empty and the "empty combo" error branch of `send_combo` is
unreachable. -/
theorem claim_C10_combo_rgb :
    (∀ (a : Option (List String)) (sp em : Option String) (r : Rgbd),
        (build_combo a sp em (some r)).rgb = some r) ∧
    (∀ (a : Option (List String)) (sp : Option String) (e : String) (v : Rgbd),
        e.isEmpty = false → EMOTION_RGB.lookup e = some v →
        (build_combo a sp (some e) none).rgb = some v) ∧
    (∀ (a : Option (List String)) (sp : Option String) (e : String),
        e.isEmpty = false → EMOTION_RGB.lookup e = none →
        (build_combo a sp (some e) none).rgb = EMOTION_RGB.lookup "neutral") ∧
    (∀ (a : Option (List String)) (sp : Option String),
        (build_combo a sp none none).rgb = EMOTION_RGB.lookup "neutral") ∧
    EMOTION_RGB.lookup "neutral" = some ⟨128, 0, 255, "breath", 0.8⟩ ∧
    (∀ (a : Option (List String)) (sp em : Option String) (rgb : Option Rgbd),
        (build_combo a sp em rgb).rgb.isSome) ∧
    (∀ (a : Option (List String)) (sp em : Option String) (rgb : Option Rgbd),
        send_combo a sp em rgb ≠ .emptyErr) := by
  refine ⟨?_, ?_, ?_, ?_, rfl, build_combo_rgb_isSome, ?_⟩
  · intro a sp em r
    rw [build_combo_rgb]
  · intro a sp e v he hlk
    rw [build_combo_rgb]
    simp [he, hlk]
  · intro a sp e he hlk
    rw [build_combo_rgb]
    simp [he, hlk]
  · intro a sp
    rw [build_combo_rgb]
  · intro a sp em rgb h
    have hs := build_combo_rgb_isSome a sp em rgb
    rw [send_combo] at h
    split at h
    · next hcond => rw [hcond.2.2] at hs; simp at hs
    · simp at h

theorem claim_C10_combo_rgb_witness :
    (("happy" : String).isEmpty = false ∧
      EMOTION_RGB.lookup "happy" = some ⟨0, 255, 0, "breath", 1.5⟩ ∧
      (build_combo (some ["sit"]) (some "Mach ich!") (some "happy") none).rgb
        = some ⟨0, 255, 0, "breath", 1.5⟩) ∧
    (("zzz" : String).isEmpty = false ∧ EMOTION_RGB.lookup "zzz" = none ∧
      (build_combo none none (some "zzz") none).rgb
        = EMOTION_RGB.lookup "neutral") :=
  ⟨⟨rfl, rfl,
    claim_C10_combo_rgb.2.1 (some ["sit"]) (some "Mach ich!") "happy"
      ⟨0, 255, 0, "breath", 1.5⟩ rfl rfl⟩,
   ⟨rfl, rfl,
    claim_C10_combo_rgb.2.2.1 none none "zzz" rfl rfl⟩⟩

/-! ### Reply parser -/

/-- C7, counterexample: the claim says loose text with embedded
structured fragments is handled by "extracting the first balanced
top-level object".  On `"ab {"a":1} cd {"b":2} ef"` the first balanced
top-level object exists and parses (to `{"a": 1}`), yet the code slices
from the first opening brace to the LAST closing brace, which fails to
parse, so `_parse_json_response` returns the speech-only fallback — not
the first balanced object. -/
theorem claim_C7_counterexample :
    specFirstBalancedObject ("ab \x7b\"a\":1\x7d cd \x7b\"b\":2\x7d ef".data)
      = some ("\x7b\"a\":1\x7d".data) ∧
    jloads "\x7b\"a\":1\x7d" = some (.obj [("a", .num "1")]) ∧
    _parse_json_response "ab \x7b\"a\":1\x7d cd \x7b\"b\":2\x7d ef"
      = fallbackDirective ("ab \x7b\"a\":1\x7d cd \x7b\"b\":2\x7d ef".data) ∧
    _parse_json_response "ab \x7b\"a\":1\x7d cd \x7b\"b\":2\x7d ef"
      ≠ Json.obj [("a", Json.num "1")] := by
  refine ⟨rfl, rfl, rfl, ?_⟩
  intro h
  have h2 : some "speak" = some "a" := congrArg Json.firstKey h
  exact absurd (Option.some.inj h2) (by decide)

/-- C7 (amended): the reply parser is total — being a Lean function it
returns a JSON value for every input string — and follows the recovery
order: accept the directly parsed stripped text; else the fenced-block
extraction; else the slice from the first opening brace to the last
closing brace (not the first balanced top-level object); and whenever
none of these recovers structured content, wrap the raw stripped text
(truncated to 200 characters) as a speech-only directive with empty
actions and a neutral mood. -/
theorem claim_C7_reply_recovery :
    (∀ (text : String) (j : Json),
        jloadsL (trimCL text.data) = some j → _parse_json_response text = j) ∧
    (∀ (text : String) (j : Json),
        jloadsL (trimCL text.data) = none →
        jloadsL (trimCL (fencedExtract text.data)) = some j →
        _parse_json_response text = j) ∧
    (∀ (text : String) (sub : List Char) (j : Json),
        jloadsL (trimCL text.data) = none →
        jloadsL (trimCL (fencedExtract text.data)) = none →
        braceSlice text.data = some sub → jloadsL sub = some j →
        _parse_json_response text = j) ∧
    (∀ text : String,
        jloadsL (trimCL text.data) = none →
        jloadsL (trimCL (fencedExtract text.data)) = none →
        (∀ sub, braceSlice text.data = some sub → jloadsL sub = none) →
        _parse_json_response text = fallbackDirective text.data) := by
  refine ⟨?_, ?_, ?_, ?_⟩
  · intro text j h1
    unfold _parse_json_response
    rw [h1]
  · intro text j h1 h2
    unfold _parse_json_response
    rw [h1, h2]
  · intro text sub j h1 h2 h3 h4
    unfold _parse_json_response
    rw [h1, h2, h3]
    show (match jloadsL sub with
          | some j => j
          | none => fallbackDirective text.data) = j
    rw [h4]
  · intro text h1 h2 h3
    unfold _parse_json_response
    rw [h1, h2]
    cases hbs : braceSlice text.data with
    | none => rfl
    | some sub =>
        show (match jloadsL sub with
              | some j => j
              | none => fallbackDirective text.data) = fallbackDirective text.data
        rw [h3 sub hbs]

theorem claim_C7_reply_recovery_witness :
    (jloadsL (trimCL ("\x7b\"speak\":\"Hi\"\x7d" : String).data)
        = some (.obj [("speak", .str "Hi")]) ∧
      _parse_json_response "\x7b\"speak\":\"Hi\"\x7d"
        = .obj [("speak", .str "Hi")]) ∧
    _parse_json_response "Hallo Welt!" = fallbackDirective ("Hallo Welt!".data) :=
  ⟨⟨rfl, claim_C7_reply_recovery.1 "\x7b\"speak\":\"Hi\"\x7d"
      (.obj [("speak", .str "Hi")]) rfl⟩,
   claim_C7_reply_recovery.2.2.2 "Hallo Welt!" rfl rfl
     (fun _ hbs => nomatch hbs)⟩

/-! ### Orchestrator history effects -/

/-- C4: per processed voice event, a Tier-1 (reflex) resolution leaves
the conversation history unchanged and sends only the reflex directive;
a Tier-3 resolution (keyword hit, truthy dict reply) appends exactly
one exchange; a Tier-2 resolution (truthy dict reply) appends exactly
one exchange; a failed turn (no usable reply) dispatches the fixed
apology and appends nothing; a truthy non-dict reply crashes the turn
(handler error speech) without touching the history.  Summary: the
history is unchanged unless a language-model call succeeded, in which
case exactly one exchange was appended. -/
theorem claim_C4_history_effects :
    (∀ (env : Env) (maxE : Nat) (hist : List HistEntry) (text : String)
        (actions : List String) (speak emotion : String),
        match_reflex text = some (actions, speak, emotion) →
        _process_voice_inner env maxE hist text
          = .done hist [.comboCall actions speak emotion false]) ∧
    (∀ (env : Env) (maxE : Nat) (hist : List HistEntry) (text : String)
        (j : Json),
        match_reflex text = none → needs_agent text = true →
        effectiveReply (call_agent env text) = some j → j.isObj = true →
        _process_voice_inner env maxE hist text
          = .done (add_exchange maxE hist text (j.getStrD "speak" ""))
              [.speakPost "Moment, ich schaue mal nach...",
               .comboCall j.getActions (j.getStrD "speak" "")
                 (j.getStrD "emotion" "think") j.rgbGiven]) ∧
    (∀ (env : Env) (maxE : Nat) (hist : List HistEntry) (text : String)
        (j : Json),
        match_reflex text = none →
        (needs_agent text = false ∨ effectiveReply (call_agent env text) = none) →
        effectiveReply (call_clawdbot_chat env text (buildContext env text).1)
          = some j →
        j.isObj = true →
        _process_voice_inner env maxE hist text
          = .done (add_exchange maxE hist text (j.getStrD "speak" ""))
              ((if needs_agent text
                then [OutCall.speakPost "Moment, ich schaue mal nach..."]
                else []) ++ (buildContext env text).2 ++
               [.comboCall j.getActions (j.getStrD "speak" "")
                 (j.getStrD "emotion" "neutral") j.rgbGiven])) ∧
    (∀ (env : Env) (maxE : Nat) (hist : List HistEntry) (text : String),
        match_reflex text = none →
        (needs_agent text = false ∨ effectiveReply (call_agent env text) = none) →
        effectiveReply (call_clawdbot_chat env text (buildContext env text).1)
          = none →
        _process_voice_inner env maxE hist text
          = .done hist
              ((if needs_agent text
                then [OutCall.speakPost "Moment, ich schaue mal nach..."]
                else []) ++ (buildContext env text).2 ++
               [.comboCall []
                 "Entschuldigung, mein Gehirn ist gerade offline. Versuche einfache Befehle wie sitz oder komm."
                 "sad" false])) ∧
    (∀ (env : Env) (maxE : Nat) (hist : List HistEntry) (text : String)
        (j : Json),
        match_reflex text = none → needs_agent text = true →
        effectiveReply (call_agent env text) = some j → j.isObj = false →
        _process_voice_inner env maxE hist text
          = .crashed hist [.speakPost "Moment, ich schaue mal nach..."]) ∧
    (∀ (env : Env) (maxE : Nat) (hist : List HistEntry) (text : String)
        (j : Json),
        match_reflex text = none →
        (needs_agent text = false ∨ effectiveReply (call_agent env text) = none) →
        effectiveReply (call_clawdbot_chat env text (buildContext env text).1)
          = some j →
        j.isObj = false →
        _process_voice_inner env maxE hist text
          = .crashed hist
              ((if needs_agent text
                then [OutCall.speakPost "Moment, ich schaue mal nach..."]
                else []) ++ (buildContext env text).2)) ∧
    (∀ (env : Env) (maxE : Nat) (hist : List HistEntry) (text : String),
        (_process_voice_inner env maxE hist text).hist = hist ∨
        ∃ j : Json, j.isObj = true ∧
          (effectiveReply (call_agent env text) = some j ∨
           effectiveReply (call_clawdbot_chat env text (buildContext env text).1)
             = some j) ∧
          (_process_voice_inner env maxE hist text).hist
            = add_exchange maxE hist text (j.getStrD "speak" "")) := by
  refine ⟨?_, ?_, ?_, ?_, ?_, ?_, ?_⟩
  · intro env maxE hist text actions speak emotion hm
    unfold _process_voice_inner
    simp only [hm]
  · intro env maxE hist text j hm hna hag hobj
    unfold _process_voice_inner
    simp only [hm, hna, hag, hobj, if_true, if_false,
      eq_self_iff_true, List.cons_append, List.nil_append]
  · intro env maxE hist text j hm hpre hch hobj
    rcases hpre with hna | hag
    · unfold _process_voice_inner
      simp only [hm, hna, hch, hobj, if_true, if_false,
        eq_self_iff_true, Bool.false_eq_true, List.cons_append,
        List.nil_append]
    · by_cases hna : needs_agent text
      · unfold _process_voice_inner
        simp only [hm, hna, hag, hch, hobj, if_true,
          if_false, eq_self_iff_true, List.cons_append, List.nil_append]
      · simp only [Bool.not_eq_true] at hna
        unfold _process_voice_inner
        simp only [hm, hna, hch, hobj, if_true,
          if_false, eq_self_iff_true, Bool.false_eq_true, List.cons_append,
          List.nil_append]
  · intro env maxE hist text hm hpre hch
    rcases hpre with hna | hag
    · unfold _process_voice_inner
      simp only [hm, hna, hch, if_true, if_false,
        eq_self_iff_true, Bool.false_eq_true, List.cons_append,
        List.nil_append]
    · by_cases hna : needs_agent text
      · unfold _process_voice_inner
        simp only [hm, hna, hag, hch, if_true,
          if_false, eq_self_iff_true, List.cons_append, List.nil_append]
      · simp only [Bool.not_eq_true] at hna
        unfold _process_voice_inner
        simp only [hm, hna, hch, if_true, if_false,
          eq_self_iff_true, Bool.false_eq_true, List.cons_append,
          List.nil_append]
  · intro env maxE hist text j hm hna hag hobj
    unfold _process_voice_inner
    simp only [hm, hna, hag, hobj, if_true, if_false,
      eq_self_iff_true, Bool.false_eq_true, List.cons_append,
      List.nil_append]
  · intro env maxE hist text j hm hpre hch hobj
    rcases hpre with hna | hag
    · unfold _process_voice_inner
      simp only [hm, hna, hch, hobj, if_true, if_false,
        eq_self_iff_true, Bool.false_eq_true, List.cons_append,
        List.nil_append]
    · by_cases hna : needs_agent text
      · unfold _process_voice_inner
        simp only [hm, hna, hag, hch, hobj, if_true,
          if_false, eq_self_iff_true, Bool.false_eq_true, List.cons_append,
          List.nil_append]
      · simp only [Bool.not_eq_true] at hna
        unfold _process_voice_inner
        simp only [hm, hna, hch, hobj, if_true,
          if_false, eq_self_iff_true, Bool.false_eq_true, List.cons_append,
          List.nil_append]
  · intro env maxE hist text
    cases hm : match_reflex text with
    | some e =>
        obtain ⟨a, sp, em⟩ := e
        left
        unfold _process_voice_inner
        simp only [hm, InnerOutcome.hist]
    | none =>
        by_cases hna : needs_agent text
        · cases hag : effectiveReply (call_agent env text) with
          | some j =>
              by_cases hobj : j.isObj
              · right
                exact ⟨j, hobj, Or.inl rfl, by
                  unfold _process_voice_inner
                  simp only [hm, hna, hag, hobj,
                    if_true, if_false, eq_self_iff_true, InnerOutcome.hist]⟩
              · left
                simp only [Bool.not_eq_true] at hobj
                unfold _process_voice_inner
                simp only [hm, hna, hag, hobj, if_true,
                  if_false, eq_self_iff_true, Bool.false_eq_true,
                  InnerOutcome.hist]
          | none =>
              cases hch : effectiveReply
                  (call_clawdbot_chat env text (buildContext env text).1) with
              | some j =>
                  by_cases hobj : j.isObj
                  · right
                    exact ⟨j, hobj, Or.inr rfl, by
                      unfold _process_voice_inner
                      simp only [hm, hna, hag, hch,
                        hobj, if_true, if_false, eq_self_iff_true,
                        InnerOutcome.hist]⟩
                  · left
                    simp only [Bool.not_eq_true] at hobj
                    unfold _process_voice_inner
                    simp only [hm, hna, hag, hch, hobj,
                      if_true, if_false, eq_self_iff_true,
                      Bool.false_eq_true, InnerOutcome.hist]
              | none =>
                  left
                  unfold _process_voice_inner
                  simp only [hm, hna, hag, hch,
                    if_true, if_false, eq_self_iff_true, InnerOutcome.hist]
        · simp only [Bool.not_eq_true] at hna
          cases hch : effectiveReply
              (call_clawdbot_chat env text (buildContext env text).1) with
          | some j =>
              by_cases hobj : j.isObj
              · right
                exact ⟨j, hobj, Or.inr rfl, by
                  unfold _process_voice_inner
                  simp only [hm, hna, hch, hobj,
                    if_true, if_false, eq_self_iff_true, Bool.false_eq_true,
                    InnerOutcome.hist]⟩
              · left
                simp only [Bool.not_eq_true] at hobj
                unfold _process_voice_inner
                simp only [hm, hna, hch, hobj, if_true,
                  if_false, eq_self_iff_true, Bool.false_eq_true,
                  InnerOutcome.hist]
          | none =>
              left
              unfold _process_voice_inner
              simp only [hm, hna, hch, if_true,
                if_false, eq_self_iff_true, Bool.false_eq_true,
                InnerOutcome.hist]

theorem claim_C4_history_effects_witness :
    (match_reflex "sitz" = some (["sit"], "Mach ich!", "happy") ∧
      _process_voice_inner
          ⟨none, none, false, "", false, false, false, []⟩ 16 [] "sitz"
        = .done [] [.comboCall ["sit"] "Mach ich!" "happy" false]) ∧
    (_process_voice_inner
        ⟨some "\x7b\"speak\":\"Gut!\",\"actions\":[],\"emotion\":\"happy\"\x7d",
          none, false, "", false, false, false, []⟩ 16 [] "wie geht es dir"
      = .done [⟨"user", "wie geht es dir"⟩, ⟨"assistant", "Gut!"⟩]
          [.statusGet, .comboCall [] "Gut!" "happy" false]) :=
  ⟨⟨rfl, claim_C4_history_effects.1
      ⟨none, none, false, "", false, false, false, []⟩ 16 [] "sitz"
      ["sit"] "Mach ich!" "happy" rfl⟩,
   by
    have h := claim_C4_history_effects.2.2.1
      ⟨some "\x7b\"speak\":\"Gut!\",\"actions\":[],\"emotion\":\"happy\"\x7d",
        none, false, "", false, false, false, []⟩ 16 [] "wie geht es dir"
      (Json.obj [("speak", .str "Gut!"), ("actions", .arr []),
        ("emotion", .str "happy")])
      rfl (Or.inl rfl) rfl rfl
    simpa using h⟩

/-! ### Single-flight gate -/

/-- A voice event arriving while the gate is held is dropped without
any effect. -/
theorem stepGate_drop (maxE : Nat) (s : SysState) (env : Env) (text : String)
    (hb : s.busy = true) : stepGate maxE s (.arrive env text) = s := by
  simp only [stepGate, hb, if_true, eq_self_iff_true, ite_self]

/-- C6: the single-flight gate drops concurrent events without effect.
An arrival while a dispatch is in flight leaves the whole state
unchanged — no outbound directive call, no history change; the
in-flight dispatch then completes exactly as it would have without the
dropped event; an arrival at an idle gate either does nothing (empty
text) or takes the gate, so at most one dispatch is ever in flight;
and completion merely releases the gate. -/
theorem claim_C6_single_flight :
    (∀ (maxE : Nat) (s : SysState) (env : Env) (text : String),
        s.busy = true → stepGate maxE s (.arrive env text) = s) ∧
    (∀ (maxE : Nat) (s : SysState) (env1 : Env) (t1 : String) (env2 : Env)
        (t2 : String),
        (stepGate maxE s (.arrive env1 t1)).busy = true →
        stepGate maxE (stepGate maxE (stepGate maxE s (.arrive env1 t1))
            (.arrive env2 t2)) .complete
          = stepGate maxE (stepGate maxE s (.arrive env1 t1)) .complete) ∧
    (∀ (maxE : Nat) (s : SysState) (env : Env) (text : String),
        s.busy = false →
        stepGate maxE s (.arrive env text) = s ∨
        (stepGate maxE s (.arrive env text)).busy = true) ∧
    (∀ (maxE : Nat) (s : SysState),
        stepGate maxE s .complete = { s with busy := false }) := by
  refine ⟨stepGate_drop, ?_, ?_, fun maxE s => rfl⟩
  · intro maxE s env1 t1 env2 t2 hb
    rw [stepGate_drop maxE (stepGate maxE s (.arrive env1 t1)) env2 t2 hb]
  · intro maxE s env text hb
    by_cases he : (String.mk (trimCL text.data)).isEmpty = true
    · exact Or.inl (by
        simp only [stepGate, he, if_true, eq_self_iff_true])
    · right
      simp only [stepGate, hb, he, if_true, if_false, eq_self_iff_true,
        Bool.false_eq_true]
      split <;> rfl

theorem claim_C6_single_flight_witness :
    (SysState.busy ⟨true, [], []⟩ = true ∧
      stepGate 16 ⟨true, [], []⟩
          (.arrive ⟨none, none, false, "", false, false, false, []⟩ "platz")
        = ⟨true, [], []⟩) ∧
    ((stepGate 16 ⟨false, [], []⟩
        (.arrive ⟨none, none, false, "", false, false, false, []⟩ "sitz")).busy
        = true ∧
      stepGate 16 (stepGate 16 (stepGate 16 ⟨false, [], []⟩
          (.arrive ⟨none, none, false, "", false, false, false, []⟩ "sitz"))
          (.arrive ⟨none, none, false, "", false, false, false, []⟩ "platz"))
          .complete
        = stepGate 16 (stepGate 16 ⟨false, [], []⟩
            (.arrive ⟨none, none, false, "", false, false, false, []⟩ "sitz"))
            .complete) :=
  ⟨⟨rfl, claim_C6_single_flight.1 16 ⟨true, [], []⟩
      ⟨none, none, false, "", false, false, false, []⟩ "platz" rfl⟩,
   ⟨rfl, claim_C6_single_flight.2.1 16 ⟨false, [], []⟩
      ⟨none, none, false, "", false, false, false, []⟩ "sitz"
      ⟨none, none, false, "", false, false, false, []⟩ "platz" rfl⟩⟩

end VoiceRelay
